import Mathlib

/-!
Verification development for the utilH repository (src/util.c).

The two components specified are the fixed-point numeric-literal parser
`atoiFP` (src/util.c lines 582-887, with its helpers `ctoi`, `getExponent`,
`isAsciiNumber` and the precomputed `exponentTable`) and the per-line
"key = value" scanner embedded in `CONFIG_getKey` (src/util.c lines 370-540,
with `isAsciiSpecialCharacter`).

Modelling conventions:
  * A C string / line buffer is a `List Nat` of byte values; the terminating
    NUL is not stored, reading past the end of the list yields 0, which is
    exactly what the NUL terminator gives the C code.  `char` is modelled as
    an unsigned byte (0..255), which realizes the evident intent of
    comparisons such as `c == 230` (the micro sign) and `c > 127`.
  * `int32_t` arithmetic that can overflow (the `ret += currentNumber`
    accumulation, `atoi` of the exponent substring, and the exponent
    additions) is modelled with `int32wrap`, two's-complement wraparound,
    the de-facto behaviour of the target compilers (signed overflow is UB
    in ISO C; wraparound is the observable behaviour being modelled).
  * Every `return 0;` failure path of `atoiFP` is modelled as `none` of
    `atoiFPCore`; the single success return is `some value`.  The public
    `atoiFP` collapses `none` to 0 exactly as the C code returns the
    literal 0 on those paths.
-/

namespace UtilH

/-- Two's-complement wraparound into the `int32_t` range, used wherever the
C code performs `int32_t` arithmetic that can overflow. -/
def int32wrap (x : Int) : Int :=
  (x + 2147483648) % 4294967296 - 2147483648

/-- Translation of `isAsciiSpecialCharacter` (src/util.c lines 555-559):
code points below 32 or above 127 count as "special". -/
def isAsciiSpecialCharacter (c : Nat) : Bool :=
  c < 32 || c > 127

/-- Translation of `isAsciiNumber` (src/util.c lines 561-564):
ASCII digits '0' (48) .. '9' (57). -/
def isAsciiNumber (c : Nat) : Bool :=
  48 ≤ c && c ≤ 57

/-- Translation of `ctoi` (src/util.c lines 582-585). -/
def ctoi (c : Nat) : Int :=
  if isAsciiNumber c then (c : Int) - 48 else 0

/-- Translation of `getExponent` (src/util.c lines 587-605).  The C function
returns `int32_t`; `0xffffffff` is therefore the value -1 (which collides
with the exponent of 'd') and `0x7fffffff` is 2147483647. -/
def getExponent (c : Nat) : Int :=
  if c = 102 then -15                 -- 'f'
  else if c = 112 then -12            -- 'p'
  else if c = 110 then -9             -- 'n'
  else if c = 117 ∨ c = 230 then -6   -- 'u', and 230 is the greek micro
  else if c = 109 then -3             -- 'm'
  else if c = 99 then -2              -- 'c'
  else if c = 100 then -1             -- 'd'
  else if c = 46 then 0               -- '.'
  else if c = 104 then 2              -- 'h'
  else if c = 107 then 3              -- 'k'
  else if c = 77 then 6               -- 'M'
  else if c = 71 then 9               -- 'G'
  else if c = 84 then 12              -- 'T'
  else if c = 80 then 15              -- 'P'
  else if isAsciiNumber c then -1     -- 0xffffffff as int32_t
  else 2147483647                     -- 0x7fffffff

/-- Digit string to number, as the standard C `atoi` accumulates digits. -/
def decDigitsVal (l : List Nat) : Int :=
  (l.takeWhile isAsciiNumber).foldl (fun a c => a * 10 + ((c : Int) - 48)) 0

/-- Model of the C library `atoi` applied to the copied exponent substring
(src/util.c line 811): optional sign, then leading digits.  The buffer that
`atoiFP` passes in never starts with whitespace, so the initial whitespace
skip of `atoi` is omitted.  A result exceeding `int` is wrapped (the cast
behaviour being modelled for out-of-range values, which is UB in ISO C). -/
def catoi (l : List Nat) : Int :=
  match l with
  | 45 :: t => int32wrap (-(decDigitsVal t))
  | 43 :: t => int32wrap (decDigitsVal t)
  | _ => int32wrap (decDigitsVal l)

/-- The scanner states of `atoiFP` (src/util.c line 624). -/
inductive AtoiState where
  | waitStart
  | waitMultiplier
  | waitEnd
  | waitE_Exponent
deriving DecidableEq

/-- The mutable locals of the `atoiFP` scanning loop (src/util.c lines
622-635).  `startNum`/`startExp` hold indices into the input (the C code
holds pointers `startOfNumber`/`startOfNumberExponent`). -/
structure AtoiSt where
  state : AtoiState
  exp : Int                 -- currentNumberPositionExponent
  neg : Bool                -- isNumberNegative
  isDot : Bool              -- isExponentADot
  startNum : Option Nat     -- startOfNumber
  startExp : Option Nat     -- startOfNumberExponent
deriving DecidableEq

/-- The forward scanning loop of `atoiFP` (src/util.c lines 638-790).
Arguments: the not-yet-scanned suffix of the input, the index `i` of its
first character (the pointer `a`), the remaining length budget `rem` (the
local `strlen` counter) and the scanner state.  The result is the index at
which the loop stopped together with the final state, or `none` for the
two `return 0;` paths inside the loop (invalid start character, and a unit
suffix while `ignoreUnit` is off).  Reading one past the scanned suffix
(`*(a+1)`) yields the NUL, i.e. 0, via `headD`. -/
def atoiScanLoop (checkLen ignoreUnit : Bool) :
    List Nat → Nat → Nat → AtoiSt → Option (Nat × AtoiSt)
  | [], i, _, st => some (i, st)
  | c :: t, i, rem, st =>
    if c = 0 then some (i, st)                      -- while(*a != 0 ...)
    else if checkLen ∧ rem = 0 then some (i, st)    -- if(!strlen--) break
    else
      let rem' := if checkLen then rem - 1 else rem
      let la := t.headD 0                           -- *(a+1)
      let ce := getExponent c                       -- currentExponent
      match st.state with
      | .waitStart =>
        if c ≠ 32 then
          if isAsciiNumber c then
            atoiScanLoop checkLen ignoreUnit t (i+1) rem'
              { st with startNum := some i, state := .waitMultiplier }
          else if c = 46 then                       -- leading '.'
            atoiScanLoop checkLen ignoreUnit t (i+1) rem'
              { st with startNum := some i, exp := 0, state := .waitEnd,
                        isDot := true }
          else if c = 45 then                       -- '-'
            atoiScanLoop checkLen ignoreUnit t (i+1) rem' { st with neg := !st.neg }
          else if c = 43 then                       -- '+'
            atoiScanLoop checkLen ignoreUnit t (i+1) rem' st
          else none                                 -- return 0
        else
          atoiScanLoop checkLen ignoreUnit t (i+1) rem' st
      | .waitMultiplier =>
        if ce = 2147483647 then
          if (c = 101 ∨ c = 69) ∧ (¬checkLen ∨ rem' ≠ 0) ∧ la ≠ 0 then
            if la = 45 ∨ isAsciiNumber la then
              atoiScanLoop checkLen ignoreUnit t (i+1) rem'
                { st with startExp := some (i+1), state := .waitE_Exponent }
            else some (i, st)                       -- breakBit
          else some (i, st)                         -- breakBit
        else if ce ≠ -1 then                        -- != 0xffffffff
          atoiScanLoop checkLen ignoreUnit t (i+1) rem'
            { st with exp := ce, state := .waitEnd,
                      isDot := if ce = 0 then true else st.isDot }
        else                                        -- just a digit
          atoiScanLoop checkLen ignoreUnit t (i+1) rem' st
      | .waitEnd =>
        if ¬ isAsciiNumber c then
          if st.isDot then
            if (c = 101 ∨ c = 69) ∧ rem' ≠ 0 then
              if la = 45 ∨ isAsciiNumber la then
                atoiScanLoop checkLen ignoreUnit t (i+1) rem'
                  { st with startExp := some (i+1), state := .waitE_Exponent }
              else some (i, st)                     -- breakBit
            else if ce ≠ 2147483647 then
              some (i, { st with exp := st.exp + ce })  -- breakBit
            else if ignoreUnit = false then none    -- return 0
            else some (i, st)                       -- breakBit
          else if ignoreUnit = false then none      -- return 0
          else some (i, st)                         -- breakBit
        else
          atoiScanLoop checkLen ignoreUnit t (i+1) rem' { st with exp := st.exp - 1 }
      | .waitE_Exponent =>
        if ¬ isAsciiNumber c ∧ ¬((c = 45 ∨ c = 43) ∧ some i = st.startExp) then
          some (i, st)                              -- breakBit
        else
          atoiScanLoop checkLen ignoreUnit t (i+1) rem' st

/-- The characters of `s` from index `a` (inclusive) to `b` (exclusive). -/
def listSub (s : List Nat) (a b : Nat) : List Nat :=
  (s.drop a).take (b - a)

/-- The backward conversion loop of `atoiFP` (src/util.c lines 838-881),
fed the captured span in reverse order (the C code walks the pointer
backwards from one past the end of the number down to `startOfNumber`; all
characters of that span are non-NUL, so the walk visits exactly the span).
`none` models the two overflow `return 0;` paths. -/
def atoiConvertLoop : List Nat → Int → Int → Option Int
  | [], _, ret => some ret
  | c :: t, exp, ret =>
    if isAsciiNumber c then
      if 0 ≤ exp then
        if exp < 10 then
          if exp = 9 ∧ ctoi c > 2 then none         -- 3*10^9 overflows
          else atoiConvertLoop t (exp + 1)
            (int32wrap (ret + ctoi c * 10 ^ exp.toNat))
        else none                                   -- exponent ≥ 10
      else atoiConvertLoop t (exp + 1) ret          -- below scale: dropped
    else atoiConvertLoop t exp ret                  -- skip '.', multiplier

/-- Translation of `atoiFP` (src/util.c lines 621-887) with the failure
paths made explicit: every `return 0;` is `none`, the final
`return isNumberNegative ? -ret : ret;` is `some`.  After the scan loop,
`state == waitE_Exponent` triggers the exponent-substring conversion
(lines 793-824: copy of at most 10 characters, `atoi`, rewind of `a` to
just before the 'e'); then the missing-number check, the base-exponent
shift and the backward conversion follow (lines 827-887). -/
def atoiFPCore (s : List Nat) (strlen : Nat) (baseExponent : Int)
    (ignoreUnit : Bool) : Option Int :=
  let checkLen : Bool :=                            -- checkForLength = strlen > 0
    match strlen with
    | 0 => false
    | _ + 1 => true
  match atoiScanLoop checkLen ignoreUnit s 0 strlen
      ⟨.waitStart, 0, false, false, none, none⟩ with
  | none => none
  | some (endIdx, st) =>
    let post : Option (Nat × Int) :=
      if st.state = .waitE_Exponent then
        match st.startExp with
        | some se =>
          if endIdx - se ≤ 10 then                  -- buffer of 10 chars
            some (se - 1, int32wrap (st.exp + catoi (listSub s se endIdx)))
          else none                                 -- buffer too small
        | none => none                              -- unreachable
      else some (endIdx, st.exp)
    match post with
    | none => none
    | some (e, exp0) =>
      match st.startNum with
      | none => none                                -- no number was found
      | some sn =>
        let exp1 := int32wrap (exp0 + baseExponent)
        match atoiConvertLoop ((listSub s sn e).reverse) exp1 0 with
        | none => none
        | some ret => some (int32wrap (if st.neg then -ret else ret))

/-- The public `atoiFP`: every failure path returns the integer 0. -/
def atoiFP (s : List Nat) (strlen : Nat) (baseExponent : Int)
    (ignoreUnit : Bool) : Int :=
  (atoiFPCore s strlen baseExponent ignoreUnit).getD 0

/-- Byte values of a string literal, for stating concrete test inputs. -/
def str (s : String) : List Nat :=
  s.toList.map Char.toNat

example : atoiFPCore (str ("10sec")) 0 0 false = some 10 := by decide
example : atoiFPCore (str ("10sec")) 0 0 true = some 10 := by decide
example : atoiFPCore (str ("2.5e3")) 5 0 false = some 2500 := by decide
example : atoiFPCore (str ("2.5e3")) 0 0 false = none := by decide
example : atoiFPCore (str ("2.5e3")) 0 0 true = some 2 := by decide
example : atoiFPCore (str ("2500000000")) 0 0 false = some (-1794967296) := by decide
example : atoiFPCore (str ("3000000000")) 0 0 false = none := by decide
example : atoiFPCore (str ("10k")) 0 0 false = some 10000 := by decide
example : atoiFPCore (str ("1.5k")) 0 0 false = some 1500 := by decide
example : atoiFPCore (str ("3u")) 0 0 false = some 0 := by decide
example : atoiFPCore (str ("10d")) 0 0 false = some 10 := by decide
example : atoiFPCore (str ("1k5")) 0 0 true = some 1500 := by decide
example : atoiFPCore (str ("0")) 0 0 false = some 0 := by decide
example : atoiFPCore (str ("x")) 0 0 false = none := by decide
example : atoiFPCore (str ("1.5x")) 0 0 false = none := by decide
example : atoiFPCore (str ("1e12345678901")) 0 0 false = none := by decide
example : atoiFPCore (str ("-42")) 0 0 false = some (-42) := by decide

/-!
The per-line "key = value" scanner of `CONFIG_getKey` (src/util.c lines
370-540).  The C code carves the key and value substrings out of the row
buffer in place by writing NUL terminators; here the key and value
characters are accumulated (in reverse) instead, and the terminator writes
become "freeze the accumulated string".  The pointer `currentEndOfValue`
(the candidate position for the trailing-whitespace cut) is modelled as the
frozen value-so-far at that position; likewise
`currentEndOfValueBeforeCommentSequence`.  The specification itself notes
(section 3) that the in-place truncation is an implementation choice and
that returning owned copies is an equivalent contract.
-/

/-- The scanner states (src/util.c line 370). -/
inductive LineState where
  | key_trimLeadingSpaces
  | key_findEnd
  | equalSign_find
  | value_trimLeadingSpaces
  | value_findEnd
deriving DecidableEq

/-- The mutable locals of the per-line scanning loop (src/util.c lines
372-383).  `keyAcc`/`valueAcc` accumulate, in reverse order, the characters
that in the C code lie between a recorded start pointer and the terminator
that will be written; `currentEndOfValue` (when set) is the value as it
would be cut at the recorded trailing-whitespace position. -/
structure LineSt where
  state : LineState
  slashCount : Nat                       -- consequitiveslashCount
  keyAcc : List Nat                      -- chars of the key, reversed
  valueAcc : List Nat                    -- chars of the value so far, reversed
  currentEndOfValue : Option (List Nat)  -- value frozen at the cut candidate
  cEovBeforeComment : Option (List Nat)  -- currentEndOfValueBeforeCommentSequence
  wasWaitingForValue : Bool              -- wasWaitingForValueBeforeCommentSequence
deriving DecidableEq

/-- The `switch(state)` detection state machine (src/util.c lines 429-516).
The Bool is true only for the early abort when the first non-space
character of the line is '=' (line 439: the loop index is pushed past the
end, ending the scan with the state unchanged). -/
def lineMachine (st : LineSt) (c : Nat) : LineSt × Bool :=
  match st.state with
  | .key_trimLeadingSpaces =>
    if c ≠ 32 ∧ ¬ isAsciiSpecialCharacter c then
      if c = 61 then (st, true)          -- first non-space is '=': no key
      else ({ st with keyAcc := [c], state := .key_findEnd }, false)
    else (st, false)
  | .key_findEnd =>
    if isAsciiSpecialCharacter c ∨ c = 32 then
      ({ st with state := .equalSign_find }, false)   -- terminator at c
    else if c = 61 then
      ({ st with state := .value_trimLeadingSpaces }, false)
    else ({ st with keyAcc := c :: st.keyAcc }, false)
  | .equalSign_find =>
    if c = 61 then ({ st with state := .value_trimLeadingSpaces }, false)
    else (st, false)                     -- anything else is ignored
  | .value_trimLeadingSpaces =>
    if c ≠ 32 ∧ ¬ isAsciiSpecialCharacter c then
      ({ st with valueAcc := [c], state := .value_findEnd }, false)
    else (st, false)
  | .value_findEnd =>
    if isAsciiSpecialCharacter c ∨ c = 32 then
      if st.currentEndOfValue = none then
        ({ st with currentEndOfValue := some st.valueAcc,
                   valueAcc := c :: st.valueAcc }, false)
      else ({ st with valueAcc := c :: st.valueAcc }, false)
    else ({ st with currentEndOfValue := none, valueAcc := c :: st.valueAcc }, false)

/-- The effect of scanning across a complete "//" comment sequence
(src/util.c lines 396-414): restore a cut candidate that was pending
before the slashes (line 402), reset a value that had not started before
the slashes (lines 406-410), and cut the line one character before the
second '/' (line 413, `rowBuffer[currChar-1] = 0`).  When the value was
being read through to the end of the line, the first '/' is the character
most recently accumulated into `valueAcc`, so that cut removes it. -/
def lineCommentCut (st : LineSt) : LineSt :=
  let st1 := if st.cEovBeforeComment ≠ none then
      { st with currentEndOfValue := st.cEovBeforeComment } else st
  let st2 := if st.wasWaitingForValue then
      { st1 with valueAcc := [], state := .value_trimLeadingSpaces } else st1
  if st2.state = .value_findEnd then
    { st2 with valueAcc := st2.valueAcc.tail } else st2

/-- Bookkeeping at a first '/' (src/util.c lines 415-421): count it,
remember a pending cut candidate and whether the value had not started
yet. -/
def lineSlashMark (st : LineSt) : LineSt :=
  { st with
    slashCount := st.slashCount + 1
    cEovBeforeComment := if st.currentEndOfValue ≠ none then
      st.currentEndOfValue else st.cEovBeforeComment
    wasWaitingForValue := if st.state = .value_trimLeadingSpaces then
      true else st.wasWaitingForValue }

/-- Bookkeeping at any non-'/' character (src/util.c lines 422-426). -/
def lineSlashReset (st : LineSt) : LineSt :=
  { st with slashCount := 0, wasWaitingForValue := false,
            cEovBeforeComment := none }

/-- One character of the scanning loop body (src/util.c lines 393-516):
first the comment-sequence detection, then the state machine.  The Bool is
true when scanning stops at this character (a "//" comment sequence or the
'='-first abort). -/
def lineStep (st : LineSt) (c : Nat) : LineSt × Bool :=
  if c = 47 then
    if st.slashCount = 1 then (lineCommentCut st, true)
    else lineMachine (lineSlashMark st) c
  else lineMachine (lineSlashReset st) c

/-- The scanning loop over one line (src/util.c lines 385-517): left to
right, stopping at a NUL, at a comment sequence or at the '='-first abort. -/
def lineScan : List Nat → LineSt → LineSt
  | [], st => st
  | c :: t, st =>
    if c = 0 then st
    else
      match lineStep st c with
      | (st', true) => st'
      | (st', false) => lineScan t st'

/-- The initial scanner state (src/util.c lines 370-383). -/
def initLineSt : LineSt :=
  ⟨.key_trimLeadingSpaces, 0, [], [], none, none, false⟩

/-- The post-scan harvest (src/util.c lines 519-540): only a scan that
reached `value_findEnd` yields a pair; a pending trailing-whitespace cut is
applied (line 522), otherwise the value runs to the end of what was
scanned. -/
def lineFinish (st : LineSt) : Option (List Nat × List Nat) :=
  if st.state = .value_findEnd then
    some (st.keyAcc.reverse, (st.currentEndOfValue.getD st.valueAcc).reverse)
  else none

/-- One full line through the scanner of `CONFIG_getKey`: the (key, value)
pair carved out of the line, if the line defines one. -/
def CONFIG_scanLine (row : List Nat) : Option (List Nat × List Nat) :=
  lineFinish (lineScan row initLineSt)

example : CONFIG_scanLine (str ("key=value")) = some (str ("key"), str ("value")) := by decide
example : CONFIG_scanLine (str ("key = value")) = some (str ("key"), str ("value")) := by decide
example : CONFIG_scanLine (str ("key   =   value   ")) = some (str ("key"), str ("value")) := by decide
example : CONFIG_scanLine (str ("key = value // comment")) = some (str ("key"), str ("value")) := by decide
example : CONFIG_scanLine (str ("key = // comment")) = none := by decide
example : CONFIG_scanLine (str ("// just a comment")) = none := by decide
example : CONFIG_scanLine (str ("=value")) = none := by decide
example : CONFIG_scanLine (str ("key =")) = none := by decide
example : CONFIG_scanLine (str ("key =    ")) = none := by decide
example : CONFIG_scanLine (str ("k=a//b")) = some (str ("k"), str ("a")) := by decide
example : CONFIG_scanLine (str ("key=value// c")) = some (str ("key"), str ("value")) := by decide
example : CONFIG_scanLine (str ("k = a b  c")) = some (str ("k"), str ("a b  c")) := by decide
example : CONFIG_scanLine (str ("key")) = none := by decide

/-!
Claim theorems.
-/

/-- C1: the claim says that a complete plain number followed by
unrecognized unit text fails to parse when `ignoreUnit` (the spec's
`allowTrailingUnit`) is false, and in particular that `atoiFP("10sec")`
with `ignoreUnit=false` fails.  The code does not do this: the
`ignoreUnit` test is only reached from the `waitEnd` state (after a
decimal point or a multiplier character, src/util.c lines 749 and 759),
never from `waitMultiplier` (lines 675-713), so "10sec" parses to 10 with
either flag value — contradicting the claim and the function's own
documentation (line 576, the "1sec" example). -/
theorem atoiFP_plain_number_trailing_unit :
    atoiFPCore (str ("10sec")) 0 0 false = some 10 ∧
    atoiFPCore (str ("10sec")) 0 0 true = some 10 ∧
    atoiFP (str ("10sec")) 0 0 false = 10 := by decide

/-- C2: the claim says a final magnitude exceeding the 32-bit signed range
is always a reported failure, never a wrapped value, naming "2500000000"
and "2.5e9".  The code's only overflow guards are "digit > 2 at position
9" and "position ≥ 10" (src/util.c lines 852 and 866-869), which let
magnitudes in (2^31-1, 3*10^9) through: the accumulation `ret +=
currentNumber` (line 863) then overflows `int32_t` and both named inputs
come back as the wrapped value -1794967296, not as a failure. -/
theorem atoiFP_overflow_wraps :
    atoiFPCore (str ("2500000000")) 0 0 false = some (-1794967296) ∧
    atoiFPCore (str ("2.5e9")) 5 0 false = some (-1794967296) ∧
    atoiFP (str ("2500000000")) 0 0 false = -1794967296 := by decide

/-- C6: the claim gives the multiplier table f→-15, p→-12, n→-9, u/µ→-6,
m→-3, c→-2, d→-1, h→2, k→3, M→6, G→9, T→12, P→15 and says a number
followed by one recognized multiplier is scaled accordingly (10k→10000,
1.5k→1500, 3u→0 by truncation).  `getExponent` does return exactly that
table, and the k/u examples hold; but 'd' is broken in the plain-digits
position: its exponent -1 is the same `int32_t` value as the digit
sentinel `0xffffffff` (src/util.c lines 594 and 603), so the comparison at
line 700 treats 'd' as "just a digit" and `atoiFP("10d")` returns 10
instead of the claimed 10*10^-1 = 1. -/
theorem atoiFP_multiplier_table :
    (getExponent 102 = -15 ∧ getExponent 112 = -12 ∧ getExponent 110 = -9 ∧
     getExponent 117 = -6 ∧ getExponent 230 = -6 ∧ getExponent 109 = -3 ∧
     getExponent 99 = -2 ∧ getExponent 100 = -1 ∧ getExponent 104 = 2 ∧
     getExponent 107 = 3 ∧ getExponent 77 = 6 ∧ getExponent 71 = 9 ∧
     getExponent 84 = 12 ∧ getExponent 80 = 15) ∧
    atoiFP (str ("10k")) 0 0 false = 10000 ∧
    atoiFP (str ("1.5k")) 0 0 false = 1500 ∧
    atoiFPCore (str ("3u")) 0 0 false = some 0 ∧
    atoiFPCore (str ("10d")) 0 0 false = some 10 ∧ (10 : Int) ≠ 1 := by decide

/-- C7: the claim says `atoiFP("2.5e3", 0)` is 2500 for every permitted
length bound, including the no-bound case `strlen = 0`.  With an explicit
bound covering the token this holds, but with `strlen = 0` it does not:
the exponent test in `waitEnd` (src/util.c line 722) checks the raw
`strlen` counter without the `!checkForLength ||` guard that the
`waitMultiplier` path uses (line 680), so with no bound the counter is 0,
e-notation after a decimal point is never recognized, and the parse stops
at the 'e' (failure when `ignoreUnit` is false, 2 when it is true). -/
theorem atoiFP_sci_exponent_length_bound :
    atoiFPCore (str ("2.5e3")) 5 0 false = some 2500 ∧
    atoiFPCore (str ("2.5e3")) 5 0 true = some 2500 ∧
    atoiFPCore (str ("2.5e3")) 6 0 false = some 2500 ∧
    atoiFPCore (str ("2.5e3")) 0 0 false = none ∧
    atoiFPCore (str ("2.5e3")) 0 0 true = some 2 := by decide

/-- C10: every failure condition of `atoiFP` — invalid start character,
no digit found, disallowed trailing unit, over-long scientific exponent,
overflow — is signalled by returning 0 with no separate error indication
(each `return 0;` in src/util.c lines 621-887), so a failed parse is
indistinguishable from a successful parse of zero: "0" and "x" both
return 0. -/
theorem atoiFP_failure_returns_zero :
    (∀ (s : List Nat) (n : Nat) (b : Int) (u : Bool),
      atoiFPCore s n b u = none → atoiFP s n b u = 0) ∧
    atoiFPCore (str ("x")) 0 0 true = none ∧
    atoiFPCore (str ("   ")) 0 0 true = none ∧
    atoiFPCore (str ("1.5x")) 0 0 false = none ∧
    atoiFPCore (str ("1e12345678901")) 0 0 true = none ∧
    atoiFPCore (str ("3000000000")) 0 0 true = none ∧
    atoiFPCore (str ("0")) 0 0 true = some 0 ∧
    atoiFP (str ("0")) 0 0 true = 0 ∧
    atoiFP (str ("x")) 0 0 true = 0 := by
  refine ⟨fun s n b u h => ?_, by decide, by decide, by decide, by decide,
    by decide, by decide, by decide, by decide⟩
  simp [atoiFP, h]

/-- Witness for C10: the general clause applied at the concrete failing
input "x". -/
theorem atoiFP_failure_returns_zero_witness :
    atoiFP (str ("x")) 3 7 false = 0 :=
  atoiFP_failure_returns_zero.1 (str ("x")) 3 7 false (by decide)

/-- Splitting an existential over the positions of a cons list. -/
theorem exists_get?_cons {α : Type} (x : α) (L : List α) (P : Nat → α → Prop) :
    (∃ k d, (x :: L).get? k = some d ∧ P k d) ↔
      P 0 x ∨ ∃ k d, L.get? k = some d ∧ P (k + 1) d := by
  constructor
  · rintro ⟨k, d, hk, hp⟩
    cases k with
    | zero =>
      simp only [List.get?_cons_zero, Option.some.injEq] at hk
      exact Or.inl (hk ▸ hp)
    | succ k => exact Or.inr ⟨k, d, by simpa using hk, hp⟩
  · rintro (hp | ⟨k, d, hk, hp⟩)
    · exact ⟨0, x, rfl, hp⟩
    · exact ⟨k + 1, d, by simpa using hk, hp⟩

/-- The backward conversion loop fails exactly when some digit of its input
(the k-th digit, counting in walk order, i.e. from the end of the captured
span) sits at decimal position exponent `exp + k ≥ 10`, or at position 9
with value at least 3. -/
theorem atoiConvertLoop_eq_none_iff (l : List Nat) : ∀ exp ret : Int,
    atoiConvertLoop l exp ret = none ↔
      ∃ k d, (l.filter (fun c => isAsciiNumber c)).get? k = some d ∧
        (10 ≤ exp + k ∨ (exp + k = 9 ∧ 3 ≤ ctoi d)) := by
  induction l with
  | nil => intro exp ret; simp [atoiConvertLoop]
  | cons c t ih =>
    intro exp ret
    by_cases hc : isAsciiNumber c
    · rw [List.filter_cons_of_pos (by simpa using hc),
        exists_get?_cons c _ (fun k d => 10 ≤ exp + k ∨ (exp + k = 9 ∧ 3 ≤ ctoi d))]
      simp only [atoiConvertLoop, hc, if_true]
      by_cases h0 : 0 ≤ exp
      · rw [if_pos h0]
        by_cases h10 : exp < 10
        · rw [if_pos h10]
          by_cases h9 : exp = 9 ∧ ctoi c > 2
          · rw [if_pos h9]
            simp only [true_iff]
            exact Or.inl (Or.inr ⟨by simpa using h9.1, by omega⟩)
          · rw [if_neg h9, ih]
            constructor
            · rintro ⟨k, d, hk, hp⟩
              refine Or.inr ⟨k, d, hk, ?_⟩
              push_cast at hp ⊢; omega
            · rintro (hp | ⟨k, d, hk, hp⟩)
              · exfalso
                simp only [Nat.cast_zero, add_zero] at hp
                rcases hp with h | ⟨he, hd⟩
                · omega
                · exact h9 ⟨he, by omega⟩
              · refine ⟨k, d, hk, ?_⟩
                push_cast at hp ⊢; omega
        · rw [if_neg h10]
          simp only [true_iff]
          exact Or.inl (Or.inl (by push_cast; omega))
      · rw [if_neg h0, ih]
        constructor
        · rintro ⟨k, d, hk, hp⟩
          refine Or.inr ⟨k, d, hk, ?_⟩
          push_cast at hp ⊢; omega
        · rintro (hp | ⟨k, d, hk, hp⟩)
          · exfalso
            simp only [Nat.cast_zero, add_zero] at hp
            omega
          · refine ⟨k, d, hk, ?_⟩
            push_cast at hp ⊢; omega
    · rw [List.filter_cons_of_neg (by simpa using hc)]
      simp only [atoiConvertLoop, hc, if_false]
      exact ih exp ret

/-- A block of digits whose position exponents are all negative contributes
nothing to the conversion: the loop drops it, only advancing the position
exponent. -/
theorem atoiConvertLoop_drop_below_scale : ∀ (l₁ l₂ : List Nat) (exp ret : Int),
    (∀ c ∈ l₁, isAsciiNumber c = true) → exp + l₁.length ≤ 0 →
    atoiConvertLoop (l₁ ++ l₂) exp ret =
      atoiConvertLoop l₂ (exp + l₁.length) ret := by
  intro l₁
  induction l₁ with
  | nil => intro l₂ exp ret _ _; simp
  | cons c t ih =>
    intro l₂ exp ret hall hle
    have hc : isAsciiNumber c = true := hall c (by simp)
    have hlen : (↑(c :: t).length : Int) = (t.length : Int) + 1 := by
      push_cast [List.length_cons]; ring
    have hneg : ¬ (0 ≤ exp) := by
      rw [hlen] at hle; omega
    simp only [List.cons_append, atoiConvertLoop, hc, if_true, List.append_eq]
    rw [if_neg hneg, ih l₂ (exp + 1) ret (fun x hx => hall x (by simp [hx]))
      (by rw [hlen] at hle; omega)]
    congr 1
    rw [hlen]; ring

/-- C3: during finalization the digit span is walked from its end back to
its start (here: `atoiConvertLoop` consumes the reversed span), and an
overflow failure is reported exactly when a digit at position exponent 9
is at least 3 or any digit sits at position exponent 10 or higher; digits
at negative position exponents are dropped without contributing; in
particular `atoiFP("3000000000", 0)` is an overflow failure. -/
theorem atoiFP_finalization_overflow :
    (∀ (l : List Nat) (exp ret : Int),
      atoiConvertLoop l exp ret = none ↔
        ∃ k d, (l.filter (fun c => isAsciiNumber c)).get? k = some d ∧
          (10 ≤ exp + k ∨ (exp + k = 9 ∧ 3 ≤ ctoi d))) ∧
    (∀ (l₁ l₂ : List Nat) (exp ret : Int),
      (∀ c ∈ l₁, isAsciiNumber c = true) → exp + l₁.length ≤ 0 →
      atoiConvertLoop (l₁ ++ l₂) exp ret =
        atoiConvertLoop l₂ (exp + l₁.length) ret) ∧
    atoiFPCore (str ("3000000000")) 0 0 false = none ∧
    atoiFP (str ("3000000000")) 0 0 false = 0 :=
  ⟨atoiConvertLoop_eq_none_iff, atoiConvertLoop_drop_below_scale,
    by decide, by decide⟩

/-- Witness for C3: the below-scale clause applied to the concrete fraction
digits "11" at position exponent -2 in front of a '.', and the overflow
characterization applied at "3000000000"'s reversed span. -/
theorem atoiFP_finalization_overflow_witness :
    atoiConvertLoop ([49, 49] ++ [46]) (-2) 0 = atoiConvertLoop [46] 0 0 := by
  have h := atoiFP_finalization_overflow.2.1 [49, 49] [46] (-2) 0
    (by decide) (by decide)
  simpa using h

/-!
Value characterization of the backward conversion, used for the
engineering-notation behaviour of digits that follow a multiplier.
-/

/-- Decimal value of a digit string read most-significant-first. -/
def decVal (l : List Nat) : Nat :=
  l.foldl (fun a c => a * 10 + (c - 48)) 0

/-- A natural number scaled by `10 ^ t`, fractional digits truncated
toward zero. -/
def scaleTrunc (n : Nat) (t : Int) : Int :=
  if 0 ≤ t then (n : Int) * 10 ^ t.toNat else ((n / 10 ^ (-t).toNat : Nat) : Int)

theorem int32wrap_eq_self {x : Int} (h1 : -2147483648 ≤ x)
    (h2 : x < 2147483648) : int32wrap x = x := by
  unfold int32wrap
  omega

theorem scaleTrunc_zero (t : Int) : scaleTrunc 0 t = 0 := by
  unfold scaleTrunc
  split_ifs <;> simp

theorem scaleTrunc_nonneg (n : Nat) (t : Int) : 0 ≤ scaleTrunc n t := by
  unfold scaleTrunc
  split_ifs <;> positivity

theorem decVal_append_digit (l : List Nat) (d : Nat) :
    decVal (l ++ [d]) = decVal l * 10 + (d - 48) := by
  simp [decVal, List.foldl_append]

theorem scaleTrunc_step_neg (a d : Nat) (t : Int) (hd : d ≤ 9) (ht : t < 0) :
    scaleTrunc (a * 10 + d) t = scaleTrunc a (t + 1) := by
  unfold scaleTrunc
  rw [if_neg (by omega : ¬ 0 ≤ t)]
  have hdiv : (a * 10 + d) / 10 = a := by omega
  by_cases h2 : 0 ≤ t + 1
  · have ht1 : t = -1 := by omega
    subst ht1
    rw [if_pos h2]
    norm_num [hdiv]
  · rw [if_neg h2]
    have hm : (-t).toNat = (-(t + 1)).toNat + 1 := by omega
    rw [hm, pow_succ, mul_comm (10 ^ (-(t + 1)).toNat) 10,
      ← Nat.div_div_eq_div_mul, hdiv]

theorem scaleTrunc_step_pos (a d : Nat) (t : Int) (ht : 0 ≤ t) :
    scaleTrunc (a * 10 + d) t = scaleTrunc a (t + 1) + (d : Int) * 10 ^ t.toNat := by
  unfold scaleTrunc
  rw [if_pos ht, if_pos (by omega : (0 : Int) ≤ t + 1)]
  have h1 : (t + 1).toNat = t.toNat + 1 := by omega
  rw [h1, pow_succ]
  push_cast
  ring

/-- Success-value characterization of the backward conversion on an
all-digit span: fed the reversed digits with the position exponent of the
last digit, it accumulates exactly the digit string's value scaled by
`10 ^ exp` with truncation, provided no digit sits at position 10 or
above and the accumulated total stays below `2^31`. -/
theorem atoiConvertLoop_digits (ds : List Nat) : ∀ exp ret : Int,
    (∀ c ∈ ds, isAsciiNumber c = true) → 0 ≤ ret →
    exp + ds.length ≤ 10 →
    ret + scaleTrunc (decVal ds) exp < 2147483648 →
    atoiConvertLoop ds.reverse exp ret =
      some (ret + scaleTrunc (decVal ds) exp) := by
  induction ds using List.reverseRecOn with
  | nil =>
    intro exp ret _ _ _ _
    simp [atoiConvertLoop, decVal, scaleTrunc_zero]
  | append_singleton ds d ih =>
    intro exp ret hall hr hlen hlt
    have hd : isAsciiNumber d = true := hall d (by simp)
    have h48 : 48 ≤ d ∧ d ≤ 57 := by simpa [isAsciiNumber] using hd
    have hsub : d - 48 ≤ 9 := by omega
    have hctoi : ctoi d = ((d - 48 : Nat) : Int) := by
      unfold ctoi
      rw [if_pos hd]
      push_cast [Nat.cast_sub (by omega : 48 ≤ d)]
      ring
    have hrev : (ds ++ [d]).reverse = d :: ds.reverse := by simp
    have hlenA : ((ds ++ [d]).length : Int) = ds.length + 1 := by
      simp only [List.length_append, List.length_singleton]
      push_cast
      ring
    rw [hlenA] at hlen
    rw [decVal_append_digit] at hlt
    rw [hrev, decVal_append_digit]
    simp only [atoiConvertLoop, hd, if_true]
    by_cases h0 : 0 ≤ exp
    · rw [if_pos h0, if_pos (by omega : exp < 10)]
      rw [scaleTrunc_step_pos _ _ _ h0] at hlt ⊢
      have hsnn := scaleTrunc_nonneg (decVal ds) (exp + 1)
      have hdpow : (0 : Int) ≤ ((d - 48 : Nat) : Int) * 10 ^ exp.toNat := by positivity
      have hno9 : ¬ (exp = 9 ∧ ctoi d > 2) := by
        rintro ⟨he9, hd3⟩
        subst he9
        rw [hctoi] at hd3
        have hval : (10 : Int) ^ (9 : Int).toNat = 1000000000 := by decide
        rw [hval] at hlt
        omega
      rw [if_neg hno9, hctoi]
      have hwrap : int32wrap (ret + ((d - 48 : Nat) : Int) * 10 ^ exp.toNat) =
          ret + ((d - 48 : Nat) : Int) * 10 ^ exp.toNat := by
        apply int32wrap_eq_self <;> omega
      rw [hwrap]
      rw [ih (exp + 1) (ret + ((d - 48 : Nat) : Int) * 10 ^ exp.toNat)
        (fun c hc => hall c (by simp [hc])) (by omega) (by omega) (by omega)]
      congr 1
      ring
    · rw [if_neg h0]
      rw [scaleTrunc_step_neg _ _ _ hsub (by omega)] at hlt ⊢
      exact ih (exp + 1) ret (fun c hc => hall c (by simp [hc])) hr (by omega) hlt

/-- A non-digit character anywhere in the conversion input is skipped
without any effect on the state. -/
theorem atoiConvertLoop_skip (x : Nat) (hx : ¬ isAsciiNumber x = true)
    (A : List Nat) : ∀ (B : List Nat) (exp ret : Int),
    atoiConvertLoop (A ++ x :: B) exp ret = atoiConvertLoop (A ++ B) exp ret := by
  induction A with
  | nil => intro B exp ret; simp [atoiConvertLoop, hx]
  | cons c t ih =>
    intro B exp ret
    simp only [List.cons_append, atoiConvertLoop]
    split_ifs <;> simp [ih]

/-!
Stepping lemmas for the forward scanning loop (no length bound, i.e.
`checkForLength` off), used to evaluate `atoiFP` on symbolic tokens.
-/

/-- On an ASCII digit `getExponent` takes the digit fallthrough and
returns `0xffffffff`, i.e. -1 as `int32_t`. -/
theorem getExponent_digit {c : Nat} (h : isAsciiNumber c = true) :
    getExponent c = -1 := by
  have h48 : 48 ≤ c ∧ c ≤ 57 := by simpa [isAsciiNumber] using h
  obtain ⟨h1, h2⟩ := h48
  interval_cases c <;> rfl

/-- A digit in `waitStart` records the start of the number and moves to
`waitMultiplier`. -/
theorem scanLoop_start_digit (u : Bool) (c : Nat) (t : List Nat) (i rem : Nat)
    (hc : isAsciiNumber c = true) :
    atoiScanLoop false u (c :: t) i rem ⟨.waitStart, 0, false, false, none, none⟩ =
      atoiScanLoop false u t (i + 1) rem
        ⟨.waitMultiplier, 0, false, false, some i, none⟩ := by
  have h48 : 48 ≤ c ∧ c ≤ 57 := by simpa [isAsciiNumber] using hc
  simp only [atoiScanLoop]
  rw [if_neg (show ¬ c = 0 by omega)]
  simp only [Bool.false_eq_true, false_and, if_false]
  rw [if_pos (show c ≠ 32 by omega), if_pos hc]

/-- A run of digits in `waitMultiplier` is consumed without any state
change. -/
theorem scanLoop_digits_waitMultiplier (u : Bool) (ds : List Nat) :
    ∀ (t : List Nat) (i rem : Nat) (e : Int) (ng dt : Bool) (sn se : Option Nat),
    (∀ c ∈ ds, isAsciiNumber c = true) →
    atoiScanLoop false u (ds ++ t) i rem ⟨.waitMultiplier, e, ng, dt, sn, se⟩ =
      atoiScanLoop false u t (i + ds.length) rem
        ⟨.waitMultiplier, e, ng, dt, sn, se⟩ := by
  induction ds with
  | nil => intro t i rem e ng dt sn se _; simp
  | cons c cs ih =>
    intro t i rem e ng dt sn se h
    have hc : isAsciiNumber c = true := h c (by simp)
    have h48 : 48 ≤ c ∧ c ≤ 57 := by simpa [isAsciiNumber] using hc
    have hge := getExponent_digit hc
    simp only [List.cons_append, atoiScanLoop]
    rw [if_neg (show ¬ c = 0 by omega)]
    simp only [Bool.false_eq_true, false_and, if_false, hge, List.append_eq]
    rw [if_neg (show ¬ (-1 : Int) = 2147483647 by decide)]
    rw [if_neg (show ¬ ¬ (-1 : Int) = -1 by simp)]
    rw [ih t (i + 1) rem e ng dt sn se (fun x hx => h x (by simp [hx]))]
    have hi : i + (c :: cs).length = i + 1 + cs.length := by
      simp [List.length_cons]
      omega
    rw [hi]

/-- A recognized multiplier character in `waitMultiplier` (one whose
exponent is neither of the two sentinels) records its exponent and moves
to `waitEnd`. -/
theorem scanLoop_multiplier (u : Bool) (m : Nat) (t : List Nat) (i rem : Nat)
    (e : Int) (ng dt : Bool) (sn se : Option Nat) (hm0 : m ≠ 0)
    (h1 : ¬ getExponent m = 2147483647) (h2 : ¬ getExponent m = -1) :
    atoiScanLoop false u (m :: t) i rem ⟨.waitMultiplier, e, ng, dt, sn, se⟩ =
      atoiScanLoop false u t (i + 1) rem
        ⟨.waitEnd, getExponent m, ng,
          (if getExponent m = 0 then true else dt), sn, se⟩ := by
  simp only [atoiScanLoop]
  rw [if_neg hm0]
  simp only [Bool.false_eq_true, false_and, if_false, List.append_eq]
  rw [if_neg h1, if_pos h2]

/-- A run of digits in `waitEnd` is consumed, each digit lowering the
position exponent by one. -/
theorem scanLoop_digits_waitEnd (u : Bool) (ds : List Nat) :
    ∀ (t : List Nat) (i rem : Nat) (e : Int) (ng dt : Bool) (sn se : Option Nat),
    (∀ c ∈ ds, isAsciiNumber c = true) →
    atoiScanLoop false u (ds ++ t) i rem ⟨.waitEnd, e, ng, dt, sn, se⟩ =
      atoiScanLoop false u t (i + ds.length) rem
        ⟨.waitEnd, e - ds.length, ng, dt, sn, se⟩ := by
  induction ds with
  | nil => intro t i rem e ng dt sn se _; simp
  | cons c cs ih =>
    intro t i rem e ng dt sn se h
    have hc : isAsciiNumber c = true := h c (by simp)
    have h48 : 48 ≤ c ∧ c ≤ 57 := by simpa [isAsciiNumber] using hc
    simp only [List.cons_append, atoiScanLoop]
    rw [if_neg (show ¬ c = 0 by omega)]
    simp only [Bool.false_eq_true, false_and, if_false, hc, eq_self_iff_true,
      not_true, List.append_eq]
    rw [ih t (i + 1) rem (e - 1) ng dt sn se (fun x hx => h x (by simp [hx]))]
    have hi : i + (c :: cs).length = i + 1 + cs.length := by
      simp [List.length_cons]
      omega
    have he : e - (c :: cs).length = e - 1 - cs.length := by
      push_cast [List.length_cons]
      ring
    rw [hi, he]

theorem listSub_full (s : List Nat) : listSub s 0 s.length = s := by
  simp [listSub]

/-- Reduction of `atoiFPCore` (no length bound) once the scan result is
known and did not stop inside an exponent string. -/
theorem atoiFPCore_noBound_finish (s : List Nat) (base : Int) (u : Bool)
    (endIdx : Nat) (st : AtoiSt) (sn : Nat)
    (hscan : atoiScanLoop false u s 0 0
      ⟨.waitStart, 0, false, false, none, none⟩ = some (endIdx, st))
    (hstate : ¬ st.state = .waitE_Exponent) (hsn : st.startNum = some sn) :
    atoiFPCore s 0 base u =
      (match atoiConvertLoop ((listSub s sn endIdx).reverse)
          (int32wrap (st.exp + base)) 0 with
        | none => none
        | some ret => some (int32wrap (if st.neg then -ret else ret))) := by
  simp only [atoiFPCore, hscan]
  rw [if_neg hstate, hsn]

/-- C8 (amended): after a plain (non-dot) multiplier character the parser
does NOT immediately finalize; digits that follow the multiplier continue
the number below the multiplier's scale point, each lowering the position
exponent by one (engineering notation: "1k5" = 1500).  For digits `ds1`,
a plain multiplier `m` (the table without '.' and without the broken 'd')
and trailing digits `ds2`, the result is the digit string `ds1 ++ ds2`
scaled by `10 ^ (exponent(m) + base - |ds2|)` with truncation, provided
no digit lands at decimal position 10 or above and the result is below
`2^31`. -/
theorem atoiFP_digits_after_multiplier
    (ds1 ds2 : List Nat) (m : Nat) (base : Int) (u : Bool)
    (h1 : ds1 ≠ []) (hd1 : ∀ c ∈ ds1, isAsciiNumber c = true)
    (hd2 : ∀ c ∈ ds2, isAsciiNumber c = true)
    (hm : m = 102 ∨ m = 112 ∨ m = 110 ∨ m = 117 ∨ m = 230 ∨ m = 109 ∨
      m = 99 ∨ m = 104 ∨ m = 107 ∨ m = 77 ∨ m = 71 ∨ m = 84 ∨ m = 80)
    (hten : getExponent m + base + ds1.length ≤ 10)
    (hlow : -2147483648 ≤ getExponent m + base - ds2.length)
    (hlt : scaleTrunc (decVal (ds1 ++ ds2)) (getExponent m + base - ds2.length)
      < 2147483648) :
    atoiFPCore (ds1 ++ m :: ds2) 0 base u =
      some (scaleTrunc (decVal (ds1 ++ ds2))
        (getExponent m + base - ds2.length)) := by
  have hmf : m ≠ 0 ∧ (¬ isAsciiNumber m = true) ∧
      (¬ getExponent m = 2147483647) ∧ (¬ getExponent m = -1) ∧
      (¬ getExponent m = 0) := by
    rcases hm with h|h|h|h|h|h|h|h|h|h|h|h|h <;> subst h <;>
      exact ⟨by decide, by decide, by decide, by decide, by decide⟩
  obtain ⟨hm0, hmnd, hce1, hce2, hce0⟩ := hmf
  obtain ⟨d, ds1', rfl⟩ : ∃ d ds1', ds1 = d :: ds1' := by
    cases ds1 with
    | nil => exact absurd rfl h1
    | cons a b => exact ⟨a, b, rfl⟩
  have hd : isAsciiNumber d = true := hd1 d (by simp)
  -- evaluate the forward scan
  have hnil := scanLoop_digits_waitEnd u ds2 [] (2 + ds1'.length) 0
    (getExponent m) false false (some 0) none hd2
  rw [List.append_nil] at hnil
  have hscan : atoiScanLoop false u ((d :: ds1') ++ m :: ds2) 0 0
      ⟨.waitStart, 0, false, false, none, none⟩ =
      some (2 + ds1'.length + ds2.length,
        ⟨.waitEnd, getExponent m - ds2.length, false, false, some 0, none⟩) := by
    rw [List.cons_append, scanLoop_start_digit u d _ 0 0 hd,
      scanLoop_digits_waitMultiplier u ds1' (m :: ds2) 1 0 0 false false
        (some 0) none (fun c hc => hd1 c (by simp [hc])),
      scanLoop_multiplier u m ds2 (1 + ds1'.length) 0 0 false false
        (some 0) none hm0 hce1 hce2,
      if_neg hce0]
    rw [show 1 + ds1'.length + 1 = 2 + ds1'.length by omega, hnil]
    simp [atoiScanLoop]
  have hlen1 : ((d :: ds1').length : Int) = ds1'.length + 1 := by
    push_cast [List.length_cons]
    ring
  have hwrap1 : int32wrap (getExponent m - ds2.length + base) =
      getExponent m + base - ds2.length := by
    rw [int32wrap_eq_self (by omega) (by rw [hlen1] at hten; omega)]
    ring
  have hidx : 2 + ds1'.length + ds2.length = ((d :: ds1') ++ m :: ds2).length := by
    simp [List.length_append, List.length_cons]
    omega
  rw [hidx] at hscan
  rw [atoiFPCore_noBound_finish ((d :: ds1') ++ m :: ds2) base u _ _ 0 hscan
    (by simp) rfl]
  rw [listSub_full]
  have hrev : ((d :: ds1') ++ m :: ds2).reverse =
      ds2.reverse ++ m :: (d :: ds1').reverse := by
    rw [List.reverse_append, List.reverse_cons (a := m)]
    simp [List.append_assoc]
  rw [hwrap1, hrev, atoiConvertLoop_skip m hmnd ds2.reverse,
    show ds2.reverse ++ (d :: ds1').reverse = ((d :: ds1') ++ ds2).reverse from
      (List.reverse_append _ _).symm]
  have hdall : ∀ c ∈ (d :: ds1') ++ ds2, isAsciiNumber c = true := by
    intro c hc
    rcases List.mem_append.1 hc with h | h
    · exact hd1 c h
    · exact hd2 c h
  have hlenA : (((d :: ds1') ++ ds2).length : Int) =
      (d :: ds1').length + ds2.length := by
    push_cast [List.length_append]
    ring
  rw [atoiConvertLoop_digits ((d :: ds1') ++ ds2)
    (getExponent m + base - ds2.length) 0 hdall (le_refl 0)
    (by rw [hlenA, hlen1]; rw [hlen1] at hten; omega)
    (by rw [zero_add]; exact hlt)]
  rw [zero_add]
  have hnn := scaleTrunc_nonneg (decVal ((d :: ds1') ++ ds2))
    (getExponent m + base - ds2.length)
  simp only [Bool.false_eq_true, if_false]
  rw [int32wrap_eq_self (by omega) hlt]

/-- C8 counterexample: the claim as stated says a digit after a plain
multiplier is not consumed and does not contribute, which would make
"1k5" parse as 1000; the code returns 1500. -/
theorem atoiFP_digits_after_multiplier_cex :
    atoiFPCore (str ("1k5")) 0 0 true = some 1500 ∧
    atoiFP (str ("1k5")) 0 0 true = 1500 ∧ (1500 : Int) ≠ 1000 := by
  decide

/-- Witness for C8: the amended theorem applied at "1k5" with base 0. -/
theorem atoiFP_digits_after_multiplier_witness :
    atoiFPCore (str ("1k5")) 0 0 false = some 1500 := by
  have h := atoiFP_digits_after_multiplier [49] [53] 107 0 false
    (by decide) (by decide) (by decide) (by decide)
    (by decide) (by decide) (by decide)
  have e1 : str ("1k5") = [49] ++ 107 :: [53] := by decide
  rw [e1, h]
  decide

/-!
Invariants of the line scanner, leading to the guarantees on any reported
(key, value) pair.
-/

/-- The accumulated (reversed) string is non-empty and the character at
its far end — the first character of the carved substring — is neither a
space nor special. -/
def goodStr (l : List Nat) : Prop :=
  ∃ c, l.getLast? = some c ∧ c ≠ 32 ∧ isAsciiSpecialCharacter c = false

theorem goodStr_nonempty {l : List Nat} (h : goodStr l) : l ≠ [] := by
  obtain ⟨c, hc, -, -⟩ := h
  rintro rfl
  simp at hc

theorem goodStr_single {c : Nat} (h1 : c ≠ 32)
    (h2 : isAsciiSpecialCharacter c = false) : goodStr [c] :=
  ⟨c, rfl, h1, h2⟩

theorem goodStr_cons (c : Nat) {l : List Nat} (h : goodStr l) :
    goodStr (c :: l) := by
  obtain ⟨x, hx, h1, h2⟩ := h
  cases l with
  | nil => simp at hx
  | cons b t => exact ⟨x, by rw [List.getLast?_cons_cons]; exact hx, h1, h2⟩

theorem goodStr_tail_of_head {l : List Nat} (h : goodStr l)
    (hh : l.head? = some 47) (hne : l ≠ [47]) : goodStr l.tail := by
  obtain ⟨x, hx, h1, h2⟩ := h
  cases l with
  | nil => simp at hh
  | cons b t =>
    simp only [List.head?_cons, Option.some.injEq] at hh
    subst hh
    cases t with
    | nil => exact absurd rfl hne
    | cons b2 t2 =>
      rw [List.getLast?_cons_cons] at hx
      exact ⟨x, hx, h1, h2⟩

/-- The invariant maintained by the per-character step: carved key and
value fragments start with a non-space, non-special character; recorded
trailing-cut candidates are well-formed value prefixes; and after a first
'/' while the value is being read, the most recently accumulated value
character is that '/' (and a lone '/' as the whole value so far can only
come from the "was still waiting for the value" situation). -/
def LineInv (st : LineSt) : Prop :=
  (st.state ≠ .key_trimLeadingSpaces → goodStr st.keyAcc) ∧
  (st.state = .value_findEnd → goodStr st.valueAcc) ∧
  (∀ v, st.currentEndOfValue = some v → goodStr v) ∧
  (∀ v, st.cEovBeforeComment = some v → goodStr v) ∧
  (st.state = .value_findEnd → st.slashCount = 1 →
    st.valueAcc.head? = some 47 ∧
      (st.valueAcc = [47] → st.wasWaitingForValue = true))

/-- What the harvest (`lineFinish`) needs of a terminal scanner state. -/
def FinishGood (st : LineSt) : Prop :=
  st.state = .value_findEnd →
    goodStr st.keyAcc ∧ goodStr (st.currentEndOfValue.getD st.valueAcc)

theorem finishGood_of_inv {st : LineSt} (h : LineInv st) : FinishGood st := by
  obtain ⟨h1, h2, h3, -, -⟩ := h
  intro hs
  refine ⟨h1 (by rw [hs]; exact fun hx => nomatch hx), ?_⟩
  cases hcand : st.currentEndOfValue with
  | none => simpa [hcand] using h2 hs
  | some v => simpa [hcand] using h3 v hcand

/-- One step of the detection state machine: the carved-string facts are
preserved, the comment-tracking fields are untouched, a halt can only be
the '='-first abort (which leaves the state at `key_trimLeadingSpaces`),
and landing in `value_findEnd` either extends a value already being read
by the scanned character or starts the value at the scanned character. -/
theorem lineMachine_good (st : LineSt) (c : Nat)
    (h1 : st.state ≠ .key_trimLeadingSpaces → goodStr st.keyAcc)
    (h2 : st.state = .value_findEnd → goodStr st.valueAcc)
    (h3 : ∀ v, st.currentEndOfValue = some v → goodStr v) :
    ∀ st' b, lineMachine st c = (st', b) →
      ((st'.state ≠ .key_trimLeadingSpaces → goodStr st'.keyAcc) ∧
       (st'.state = .value_findEnd → goodStr st'.valueAcc) ∧
       (∀ v, st'.currentEndOfValue = some v → goodStr v)) ∧
      (st'.slashCount = st.slashCount ∧
       st'.cEovBeforeComment = st.cEovBeforeComment ∧
       st'.wasWaitingForValue = st.wasWaitingForValue) ∧
      (b = true → st'.state = .key_trimLeadingSpaces) ∧
      (st'.state = .value_findEnd →
        (st.state = .value_findEnd ∧ st'.valueAcc = c :: st.valueAcc) ∨
        (st.state = .value_trimLeadingSpaces ∧ st'.valueAcc = [c])) := by
  rcases st with ⟨state, slash, keyAcc, valueAcc, cand, ceov, wasW⟩
  intro st' b heq
  cases state with
  | key_trimLeadingSpaces =>
    simp only [lineMachine] at heq
    split_ifs at heq with hcA hcB
    · -- first non-space is '=': abort, state unchanged
      obtain ⟨rfl, rfl⟩ := Prod.mk.inj heq
      dsimp only
      refine ⟨⟨?_, ?_, h3⟩, ⟨rfl, rfl, rfl⟩, ?_, ?_⟩
      · intro hx; exact absurd rfl hx
      · intro hx; exact nomatch hx
      · intro hx; exact rfl
      · intro hx; exact nomatch hx
    · -- start of the key
      obtain ⟨rfl, rfl⟩ := Prod.mk.inj heq
      dsimp only
      refine ⟨⟨?_, ?_, h3⟩, ⟨rfl, rfl, rfl⟩, ?_, ?_⟩
      · intro hx; exact goodStr_single hcA.1 (by simpa using hcA.2)
      · intro hx; exact nomatch hx
      · intro hx; exact nomatch hx
      · intro hx; exact nomatch hx
    · -- still skipping leading spaces
      obtain ⟨rfl, rfl⟩ := Prod.mk.inj heq
      dsimp only
      refine ⟨⟨?_, ?_, h3⟩, ⟨rfl, rfl, rfl⟩, ?_, ?_⟩
      · intro hx; exact absurd rfl hx
      · intro hx; exact nomatch hx
      · intro hx; exact nomatch hx
      · intro hx; exact nomatch hx
  | key_findEnd =>
    have hk : goodStr keyAcc := h1 (fun hx => nomatch hx)
    simp only [lineMachine] at heq
    split_ifs at heq with hcA hcB
    · -- space/special ends the key
      obtain ⟨rfl, rfl⟩ := Prod.mk.inj heq
      dsimp only
      refine ⟨⟨?_, ?_, h3⟩, ⟨rfl, rfl, rfl⟩, ?_, ?_⟩
      · intro hx; exact hk
      · intro hx; exact nomatch hx
      · intro hx; exact nomatch hx
      · intro hx; exact nomatch hx
    · -- '=' ends the key, straight to the value
      obtain ⟨rfl, rfl⟩ := Prod.mk.inj heq
      dsimp only
      refine ⟨⟨?_, ?_, h3⟩, ⟨rfl, rfl, rfl⟩, ?_, ?_⟩
      · intro hx; exact hk
      · intro hx; exact nomatch hx
      · intro hx; exact nomatch hx
      · intro hx; exact nomatch hx
    · -- key continues
      obtain ⟨rfl, rfl⟩ := Prod.mk.inj heq
      dsimp only
      refine ⟨⟨?_, ?_, h3⟩, ⟨rfl, rfl, rfl⟩, ?_, ?_⟩
      · intro hx; exact goodStr_cons c hk
      · intro hx; exact nomatch hx
      · intro hx; exact nomatch hx
      · intro hx; exact nomatch hx
  | equalSign_find =>
    have hk : goodStr keyAcc := h1 (fun hx => nomatch hx)
    simp only [lineMachine] at heq
    split_ifs at heq with hcA
    · obtain ⟨rfl, rfl⟩ := Prod.mk.inj heq
      dsimp only
      refine ⟨⟨?_, ?_, h3⟩, ⟨rfl, rfl, rfl⟩, ?_, ?_⟩
      · intro hx; exact hk
      · intro hx; exact nomatch hx
      · intro hx; exact nomatch hx
      · intro hx; exact nomatch hx
    · obtain ⟨rfl, rfl⟩ := Prod.mk.inj heq
      dsimp only
      refine ⟨⟨?_, ?_, h3⟩, ⟨rfl, rfl, rfl⟩, ?_, ?_⟩
      · intro hx; exact hk
      · intro hx; exact nomatch hx
      · intro hx; exact nomatch hx
      · intro hx; exact nomatch hx
  | value_trimLeadingSpaces =>
    have hk : goodStr keyAcc := h1 (fun hx => nomatch hx)
    simp only [lineMachine] at heq
    split_ifs at heq with hcA
    · -- start of the value
      obtain ⟨rfl, rfl⟩ := Prod.mk.inj heq
      dsimp only
      refine ⟨⟨?_, ?_, h3⟩, ⟨rfl, rfl, rfl⟩, ?_, ?_⟩
      · intro hx; exact hk
      · intro hx; exact goodStr_single hcA.1 (by simpa using hcA.2)
      · intro hx; exact nomatch hx
      · intro hx; exact Or.inr ⟨rfl, rfl⟩
    · obtain ⟨rfl, rfl⟩ := Prod.mk.inj heq
      dsimp only
      refine ⟨⟨?_, ?_, h3⟩, ⟨rfl, rfl, rfl⟩, ?_, ?_⟩
      · intro hx; exact hk
      · intro hx; exact nomatch hx
      · intro hx; exact nomatch hx
      · intro hx; exact nomatch hx
  | value_findEnd =>
    have hk : goodStr keyAcc := h1 (fun hx => nomatch hx)
    have hv : goodStr valueAcc := h2 rfl
    simp only [lineMachine] at heq
    split_ifs at heq with hcA hcB
    · -- space/special with no candidate yet: record the cut candidate
      obtain ⟨rfl, rfl⟩ := Prod.mk.inj heq
      dsimp only
      refine ⟨⟨?_, ?_, ?_⟩, ⟨rfl, rfl, rfl⟩, ?_, ?_⟩
      · intro hx; exact hk
      · intro hx; exact goodStr_cons c hv
      · intro v hvv
        simp only [Option.some.injEq] at hvv
        exact hvv ▸ hv
      · intro hx; exact nomatch hx
      · intro hx; exact Or.inl ⟨rfl, rfl⟩
    · -- space/special with a candidate already recorded
      obtain ⟨rfl, rfl⟩ := Prod.mk.inj heq
      dsimp only
      refine ⟨⟨?_, ?_, h3⟩, ⟨rfl, rfl, rfl⟩, ?_, ?_⟩
      · intro hx; exact hk
      · intro hx; exact goodStr_cons c hv
      · intro hx; exact nomatch hx
      · intro hx; exact Or.inl ⟨rfl, rfl⟩
    · -- non-space: reset the candidate
      obtain ⟨rfl, rfl⟩ := Prod.mk.inj heq
      dsimp only
      refine ⟨⟨?_, ?_, ?_⟩, ⟨rfl, rfl, rfl⟩, ?_, ?_⟩
      · intro hx; exact hk
      · intro hx; exact goodStr_cons c hv
      · intro v hvv; exact nomatch hvv
      · intro hx; exact nomatch hx
      · intro hx; exact Or.inl ⟨rfl, rfl⟩

/-- The comment-sequence cut leaves a state whose harvest is well-formed. -/
theorem lineCommentCut_good (st : LineSt) (h : LineInv st)
    (hsl : st.slashCount = 1) : FinishGood (lineCommentCut st) := by
  obtain ⟨h1, h2, h3, h4, h5⟩ := h
  rcases st with ⟨state, slash, keyAcc, valueAcc, cand, ceov, wasW⟩
  dsimp only at hsl
  subst hsl
  simp only [lineCommentCut]
  by_cases hceov : ceov ≠ none
  · rw [if_pos hceov]
    dsimp only
    by_cases hwas : wasW = true
    · rw [if_pos hwas]
      dsimp only
      rw [if_neg (show ¬ LineState.value_trimLeadingSpaces =
        LineState.value_findEnd by decide)]
      intro hfe
      exact nomatch hfe
    · rw [if_neg hwas]
      dsimp only
      by_cases hfe : state = .value_findEnd
      · rw [if_pos hfe]
        intro _
        refine ⟨h1 (by rw [hfe]; exact fun hx => nomatch hx), ?_⟩
        show goodStr (ceov.getD valueAcc.tail)
        obtain ⟨w, hw⟩ := Option.ne_none_iff_exists'.mp hceov
        rw [hw]
        exact h4 w hw
      · rw [if_neg hfe]
        intro hx
        exact absurd hx hfe
  · rw [if_neg hceov]
    by_cases hwas : wasW = true
    · rw [if_pos hwas]
      dsimp only
      rw [if_neg (show ¬ LineState.value_trimLeadingSpaces =
        LineState.value_findEnd by decide)]
      intro hfe
      exact nomatch hfe
    · rw [if_neg hwas]
      by_cases hfe : state = .value_findEnd
      · rw [if_pos hfe]
        intro _
        refine ⟨h1 (by rw [hfe]; exact fun hx => nomatch hx), ?_⟩
        show goodStr (cand.getD valueAcc.tail)
        cases hcand : cand with
        | some v =>
          exact h3 v hcand
        | none =>
          obtain ⟨hhead, hsingle⟩ := h5 hfe rfl
          refine goodStr_tail_of_head (h2 hfe) hhead ?_
          intro habs
          exact hwas (hsingle habs)
      · rw [if_neg hfe]
        intro hx
        exact absurd hx hfe

/-- One character of the scanning loop preserves the invariant when it
continues, and leaves a state whose harvest is well-formed when it stops
(comment sequence or '='-first abort). -/
theorem lineStep_good (st : LineSt) (c : Nat) (h : LineInv st) :
    (∀ st', lineStep st c = (st', false) → LineInv st') ∧
    (∀ st', lineStep st c = (st', true) → FinishGood st') := by
  obtain ⟨h1, h2, h3, h4, h5⟩ := h
  by_cases h47 : c = 47
  · subst h47
    by_cases hsl : st.slashCount = 1
    · constructor
      · intro st' heq
        rw [lineStep, if_pos rfl, if_pos hsl] at heq
        exact absurd (Prod.mk.inj heq).2 (by decide)
      · intro st' heq
        rw [lineStep, if_pos rfl, if_pos hsl] at heq
        obtain ⟨rfl, -⟩ := Prod.mk.inj heq
        exact lineCommentCut_good st ⟨h1, h2, h3, h4, h5⟩ hsl
    · constructor
      · intro st' heq
        rw [lineStep, if_pos rfl, if_neg hsl] at heq
        obtain ⟨⟨g1, g2, g3⟩, ⟨es, ec, ew⟩, -, gshape⟩ :=
          lineMachine_good (lineSlashMark st) 47 h1 h2 h3 st' false heq
        refine ⟨g1, g2, g3, ?_, ?_⟩
        · intro v hv
          rw [ec] at hv
          simp only [lineSlashMark] at hv
          by_cases hc0 : st.currentEndOfValue ≠ none
          · rw [if_pos hc0] at hv
            exact h3 v hv
          · rw [if_neg hc0] at hv
            exact h4 v hv
        · intro hfe hsl1
          rcases gshape hfe with ⟨hold, hacc⟩ | ⟨hold, hacc⟩
          · refine ⟨by rw [hacc]; rfl, ?_⟩
            intro habs
            rw [hacc] at habs
            exact absurd (List.cons.inj habs).2 (goodStr_nonempty (h2 hold))
          · refine ⟨by rw [hacc]; rfl, ?_⟩
            intro _
            rw [ew]
            simp only [lineSlashMark]
            rw [if_pos (show st.state = LineState.value_trimLeadingSpaces from hold)]
      · intro st' heq
        rw [lineStep, if_pos rfl, if_neg hsl] at heq
        obtain ⟨-, -, ghalt, -⟩ :=
          lineMachine_good (lineSlashMark st) 47 h1 h2 h3 st' true heq
        intro hfe
        rw [ghalt rfl] at hfe
        exact nomatch hfe
  · constructor
    · intro st' heq
      rw [lineStep, if_neg h47] at heq
      obtain ⟨⟨g1, g2, g3⟩, ⟨es, ec, ew⟩, -, -⟩ :=
        lineMachine_good (lineSlashReset st) c h1 h2 h3 st' false heq
      refine ⟨g1, g2, g3, ?_, ?_⟩
      · intro v hv
        rw [ec] at hv
        exact nomatch hv
      · intro hfe hsl1
        rw [es] at hsl1
        exact absurd (show (0 : Nat) = 1 from hsl1) (by decide)
    · intro st' heq
      rw [lineStep, if_neg h47] at heq
      obtain ⟨-, -, ghalt, -⟩ :=
        lineMachine_good (lineSlashReset st) c h1 h2 h3 st' true heq
      intro hfe
      rw [ghalt rfl] at hfe
      exact nomatch hfe

/-- Scanning any line from an invariant state ends in a state whose
harvest is well-formed. -/
theorem lineScan_good (row : List Nat) : ∀ st, LineInv st →
    FinishGood (lineScan row st) := by
  induction row with
  | nil => intro st h; exact finishGood_of_inv h
  | cons c t ih =>
    intro st h
    simp only [lineScan]
    by_cases hc : c = 0
    · rw [if_pos hc]
      exact finishGood_of_inv h
    · rw [if_neg hc]
      rcases hstep : lineStep st c with ⟨st', b⟩
      cases b
      · exact ih st' ((lineStep_good st c h).1 st' hstep)
      · exact (lineStep_good st c h).2 st' hstep

theorem lineInv_init : LineInv initLineSt := by
  refine ⟨?_, ?_, ?_, ?_, ?_⟩
  · intro hx; exact absurd rfl hx
  · intro hx; exact nomatch hx
  · intro v hv; exact nomatch hv
  · intro v hv; exact nomatch hv
  · intro hx; exact nomatch hx

/-- C9: whenever the line scanner reports a match, the key and the value
are both non-empty and each begins with a character that is neither a
space nor special (code below 32 or above 127); in particular a line
whose '=' is followed only by whitespace (or nothing) before the end of
the line yields no match rather than an empty value. -/
theorem CONFIG_scanLine_match_invariant :
    (∀ row k v : List Nat, CONFIG_scanLine row = some (k, v) →
      k ≠ [] ∧ v ≠ [] ∧
      (∃ c, k.head? = some c ∧ c ≠ 32 ∧ isAsciiSpecialCharacter c = false) ∧
      (∃ c, v.head? = some c ∧ c ≠ 32 ∧ isAsciiSpecialCharacter c = false)) ∧
    CONFIG_scanLine (str ("key =")) = none ∧
    CONFIG_scanLine (str ("key =    ")) = none := by
  refine ⟨?_, by decide, by decide⟩
  intro row k v hkv
  have hg := lineScan_good row initLineSt lineInv_init
  rw [CONFIG_scanLine] at hkv
  rw [lineFinish] at hkv
  by_cases hs : (lineScan row initLineSt).state = .value_findEnd
  · rw [if_pos hs] at hkv
    obtain ⟨hk, hv⟩ := hg hs
    obtain ⟨hke, hve⟩ := Prod.mk.inj (Option.some.inj hkv)
    obtain ⟨ck, hck, hck1, hck2⟩ := hk
    obtain ⟨cv, hcv, hcv1, hcv2⟩ := hv
    have hkh : k.head? = some ck := by
      rw [← hke, List.head?_reverse]
      exact hck
    have hvh : v.head? = some cv := by
      rw [← hve, List.head?_reverse]
      exact hcv
    refine ⟨?_, ?_, ⟨ck, hkh, hck1, hck2⟩, ⟨cv, hvh, hcv1, hcv2⟩⟩
    · intro habs
      rw [habs] at hkh
      exact nomatch hkh
    · intro habs
      rw [habs] at hvh
      exact nomatch hvh
  · rw [if_neg hs] at hkv
    exact nomatch hkv

/-- Witness for C9: the general clause applied at the line "k=v". -/
theorem CONFIG_scanLine_match_invariant_witness :
    str ("k") ≠ [] ∧ str ("v") ≠ [] ∧
    (∃ c, (str ("k")).head? = some c ∧ c ≠ 32 ∧
      isAsciiSpecialCharacter c = false) ∧
    (∃ c, (str ("v")).head? = some c ∧ c ≠ 32 ∧
      isAsciiSpecialCharacter c = false) :=
  CONFIG_scanLine_match_invariant.1 (str ("k=v")) (str ("k")) (str ("v"))
    (by decide)

/-- C5: two consecutive '/' characters terminate the scan immediately —
the result does not depend on anything after the second '/' — and the
concrete behaviours: a recorded trailing-whitespace cut is applied
retroactively ("key = value // comment" yields the pair (key, value)),
and a comment arriving while still waiting for the value resets the value
("key = // comment" yields no match). -/
theorem CONFIG_scanLine_comment_behavior :
    (∀ (st : LineSt) (rest rest' : List Nat), st.slashCount = 1 →
      lineScan (47 :: rest) st = lineScan (47 :: rest') st) ∧
    CONFIG_scanLine (str ("key = value // comment")) =
      some (str ("key"), str ("value")) ∧
    CONFIG_scanLine (str ("key = // comment")) = none := by
  refine ⟨?_, by decide, by decide⟩
  intro st rest rest' hsl
  simp only [lineScan]
  rw [if_neg (show ¬ (47 : Nat) = 0 by decide),
    if_neg (show ¬ (47 : Nat) = 0 by decide)]
  rw [lineStep, if_pos rfl, if_pos hsl]

/-- Witness for C5: the termination clause applied at a concrete state
with one slash already seen and two different tails. -/
theorem CONFIG_scanLine_comment_behavior_witness :
    lineScan (47 :: str ("garbage")) ⟨.value_findEnd, 1, [107], [47, 118], none, some [118], false⟩ =
      lineScan (47 :: []) ⟨.value_findEnd, 1, [107], [47, 118], none, some [118], false⟩ :=
  CONFIG_scanLine_comment_behavior.1 _ (str ("garbage")) [] rfl

/-!
Phase-by-phase evaluation of the line scanner on a well-formed
"key = value" line.
-/

/-- No two consecutive '/' characters. -/
def noDS : List Nat → Prop
  | [] => True
  | [_] => True
  | a :: b :: t => ¬(a = 47 ∧ b = 47) ∧ noDS (b :: t)

theorem noDS_tail {a : Nat} {t : List Nat} (h : noDS (a :: t)) : noDS t := by
  cases t with
  | nil => trivial
  | cons b t2 => exact h.2

theorem noDS_head2 {t : List Nat} (h : noDS (47 :: t)) :
    t.head? ≠ some 47 := by
  cases t with
  | nil => simp
  | cons b t2 =>
    intro hb
    simp only [List.head?_cons, Option.some.injEq] at hb
    exact h.1 ⟨rfl, hb⟩

/-- The value accumulator and trailing-cut candidate, folded over a run of
characters scanned in `value_findEnd`. -/
def valFold : List Nat → List Nat → Option (List Nat) →
    List Nat × Option (List Nat)
  | [], acc, cand => (acc, cand)
  | c :: t, acc, cand =>
    if isAsciiSpecialCharacter c ∨ c = 32 then
      valFold t (c :: acc) (if cand = none then some acc else cand)
    else valFold t (c :: acc) none

/-- One continuing step of the scanning loop. -/
theorem lineScan_cons (c : Nat) (t : List Nat) (st st' : LineSt)
    (hc : ¬ c = 0) (hstep : lineStep st c = (st', false)) :
    lineScan (c :: t) st = lineScan t st' := by
  simp only [lineScan]
  rw [if_neg hc, hstep]

/-- Leading spaces before the key are skipped without any state change. -/
theorem lineScan_leading_spaces (sp : List Nat) : ∀ rest : List Nat,
    (∀ c ∈ sp, c = 32) →
    lineScan (sp ++ rest) initLineSt = lineScan rest initLineSt := by
  induction sp with
  | nil => intro rest _; rfl
  | cons c t ih =>
    intro rest hsp
    have hc : c = 32 := hsp c (by simp)
    subst hc
    rw [List.cons_append,
      lineScan_cons 32 (t ++ rest) initLineSt initLineSt (by decide) (by decide)]
    exact ih rest (fun c hc => hsp c (by simp [hc]))

/-- The first key character moves the scanner to `key_findEnd`. -/
theorem lineScan_key_start (k : Nat) (t rest : List Nat)
    (hk : k ≠ 32 ∧ isAsciiSpecialCharacter k = false ∧ k ≠ 61) :
    lineScan ((k :: t) ++ rest) initLineSt =
      lineScan (t ++ rest)
        ⟨.key_findEnd, (if k = 47 then 1 else 0), [k], [], none, none, false⟩ := by
  obtain ⟨hk32, hksp, hk61⟩ := hk
  have hk0 : ¬ k = 0 := by
    simp only [isAsciiSpecialCharacter] at hksp
    intro h
    subst h
    exact absurd hksp (by decide)
  rw [List.cons_append, lineScan_cons k (t ++ rest) initLineSt _ hk0 ?_]
  by_cases h47 : k = 47
  · subst h47
    decide
  · rw [lineStep, if_neg h47]
    simp only [lineSlashReset, initLineSt, lineMachine]
    rw [if_pos (show k ≠ 32 ∧ ¬ isAsciiSpecialCharacter k = true from
      ⟨hk32, by simp [hksp]⟩), if_neg hk61, if_neg h47]

/-- The body of the key is accumulated in `key_findEnd`; no character of
it is a space, a special character or '=', and no two consecutive slashes
occur in it, so the scan runs straight through it. -/
theorem lineScan_key_phase (xs : List Nat) : ∀ (K rest : List Nat) (sl : Nat),
    (∀ c ∈ xs, c ≠ 32 ∧ isAsciiSpecialCharacter c = false ∧ c ≠ 61) →
    sl ≤ 1 → (sl = 1 → xs.head? ≠ some 47) → noDS xs →
    ∃ sl', lineScan (xs ++ rest) ⟨.key_findEnd, sl, K, [], none, none, false⟩ =
      lineScan rest ⟨.key_findEnd, sl', xs.reverse ++ K, [], none, none, false⟩ := by
  induction xs with
  | nil => intro K rest sl _ _ _ _; exact ⟨sl, by simp⟩
  | cons c t ih =>
    intro K rest sl hch hsl hhd hds
    obtain ⟨hc32, hcsp, hc61⟩ := hch c (by simp)
    have hc0 : ¬ c = 0 := by
      intro h
      subst h
      exact absurd hcsp (by decide)
    by_cases h47 : c = 47
    · subst h47
      have hsl0 : sl = 0 := by
        have : sl ≠ 1 := fun h1 => (hhd h1) rfl
        omega
      subst hsl0
      have hstep : lineStep ⟨.key_findEnd, 0, K, [], none, none, false⟩ 47 =
          (⟨.key_findEnd, 1, 47 :: K, [], none, none, false⟩, false) := by
        simp [lineStep, lineSlashMark, lineMachine, isAsciiSpecialCharacter]
      rw [List.cons_append, lineScan_cons _ _ _ _ (by decide) hstep]
      obtain ⟨sl', hrec⟩ := ih (47 :: K) rest 1
        (fun x hx => hch x (by simp [hx])) (le_refl 1)
        (fun _ => noDS_head2 hds) (noDS_tail hds)
      refine ⟨sl', ?_⟩
      rw [hrec]
      simp [List.append_assoc]
    · have hstep : lineStep ⟨.key_findEnd, sl, K, [], none, none, false⟩ c =
          (⟨.key_findEnd, 0, c :: K, [], none, none, false⟩, false) := by
        rw [lineStep, if_neg h47]
        simp only [lineSlashReset, lineMachine]
        rw [if_neg (show ¬ (isAsciiSpecialCharacter c = true ∨ c = 32) from by
          simp [hcsp, hc32]), if_neg hc61]
      rw [List.cons_append, lineScan_cons _ _ _ _ hc0 hstep]
      obtain ⟨sl', hrec⟩ := ih (c :: K) rest 0
        (fun x hx => hch x (by simp [hx])) (by omega)
        (fun h => absurd h (by omega)) (noDS_tail hds)
      refine ⟨sl', ?_⟩
      rw [hrec]
      simp [List.append_assoc]

/-- An '=' directly after the key body moves straight to the value. -/
theorem lineScan_key_eq (K rest : List Nat) (sl : Nat) :
    lineScan (61 :: rest) ⟨.key_findEnd, sl, K, [], none, none, false⟩ =
      lineScan rest ⟨.value_trimLeadingSpaces, 0, K, [], none, none, false⟩ := by
  have hstep : lineStep ⟨.key_findEnd, sl, K, [], none, none, false⟩ 61 =
      (⟨.value_trimLeadingSpaces, 0, K, [], none, none, false⟩, false) := by
    rw [lineStep, if_neg (by decide : ¬ (61 : Nat) = 47)]
    simp [lineSlashReset, lineMachine, isAsciiSpecialCharacter]
  exact lineScan_cons _ _ _ _ (by decide) hstep

/-- A space after the key body terminates the key and starts the hunt for
the '='. -/
theorem lineScan_key_space (K rest : List Nat) (sl : Nat) :
    lineScan (32 :: rest) ⟨.key_findEnd, sl, K, [], none, none, false⟩ =
      lineScan rest ⟨.equalSign_find, 0, K, [], none, none, false⟩ := by
  have hstep : lineStep ⟨.key_findEnd, sl, K, [], none, none, false⟩ 32 =
      (⟨.equalSign_find, 0, K, [], none, none, false⟩, false) := by
    rw [lineStep, if_neg (by decide : ¬ (32 : Nat) = 47)]
    simp [lineSlashReset, lineMachine, isAsciiSpecialCharacter]
  exact lineScan_cons _ _ _ _ (by decide) hstep

/-- Spaces between the key and the '=' are ignored by `equalSign_find`. -/
theorem lineScan_eq_spaces (sp : List Nat) : ∀ (K rest : List Nat),
    (∀ c ∈ sp, c = 32) →
    lineScan (sp ++ rest) ⟨.equalSign_find, 0, K, [], none, none, false⟩ =
      lineScan rest ⟨.equalSign_find, 0, K, [], none, none, false⟩ := by
  induction sp with
  | nil => intro K rest _; rfl
  | cons c t ih =>
    intro K rest hsp
    have hc : c = 32 := hsp c (by simp)
    subst hc
    have hstep : lineStep ⟨.equalSign_find, 0, K, [], none, none, false⟩ 32 =
        (⟨.equalSign_find, 0, K, [], none, none, false⟩, false) := by
      rw [lineStep, if_neg (by decide : ¬ (32 : Nat) = 47)]
      simp [lineSlashReset, lineMachine, isAsciiSpecialCharacter]
    rw [List.cons_append, lineScan_cons _ _ _ _ (by decide) hstep]
    exact ih K rest (fun c hc => hsp c (by simp [hc]))

/-- The '=' found from `equalSign_find` moves to the value. -/
theorem lineScan_eq_found (K rest : List Nat) :
    lineScan (61 :: rest) ⟨.equalSign_find, 0, K, [], none, none, false⟩ =
      lineScan rest ⟨.value_trimLeadingSpaces, 0, K, [], none, none, false⟩ := by
  have hstep : lineStep ⟨.equalSign_find, 0, K, [], none, none, false⟩ 61 =
      (⟨.value_trimLeadingSpaces, 0, K, [], none, none, false⟩, false) := by
    rw [lineStep, if_neg (by decide : ¬ (61 : Nat) = 47)]
    simp [lineSlashReset, lineMachine, isAsciiSpecialCharacter]
  exact lineScan_cons _ _ _ _ (by decide) hstep

/-- Spaces after the '=' are skipped in `value_trimLeadingSpaces`. -/
theorem lineScan_value_spaces (sp : List Nat) : ∀ (K rest : List Nat),
    (∀ c ∈ sp, c = 32) →
    lineScan (sp ++ rest) ⟨.value_trimLeadingSpaces, 0, K, [], none, none, false⟩ =
      lineScan rest ⟨.value_trimLeadingSpaces, 0, K, [], none, none, false⟩ := by
  induction sp with
  | nil => intro K rest _; rfl
  | cons c t ih =>
    intro K rest hsp
    have hc : c = 32 := hsp c (by simp)
    subst hc
    have hstep : lineStep ⟨.value_trimLeadingSpaces, 0, K, [], none, none, false⟩ 32 =
        (⟨.value_trimLeadingSpaces, 0, K, [], none, none, false⟩, false) := by
      rw [lineStep, if_neg (by decide : ¬ (32 : Nat) = 47)]
      simp [lineSlashReset, lineMachine, isAsciiSpecialCharacter]
    rw [List.cons_append, lineScan_cons _ _ _ _ (by decide) hstep]
    exact ih K rest (fun c hc => hsp c (by simp [hc]))

/-- The first value character starts `value_findEnd`. -/
theorem lineScan_value_start (v0 : Nat) (t rest K : List Nat)
    (hv : v0 ≠ 32 ∧ isAsciiSpecialCharacter v0 = false) :
    lineScan ((v0 :: t) ++ rest) ⟨.value_trimLeadingSpaces, 0, K, [], none, none, false⟩ =
      lineScan (t ++ rest)
        ⟨.value_findEnd, (if v0 = 47 then 1 else 0), K, [v0], none, none,
          (if v0 = 47 then true else false)⟩ := by
  obtain ⟨hv32, hvsp⟩ := hv
  have hv0 : ¬ v0 = 0 := by
    intro h
    subst h
    exact absurd hvsp (by decide)
  rw [List.cons_append, lineScan_cons v0 (t ++ rest) _ _ hv0 ?_]
  by_cases h47 : v0 = 47
  · subst h47
    rw [lineStep, if_pos rfl,
      if_neg (show ¬ (⟨.value_trimLeadingSpaces, 0, K, [], none, none, false⟩ :
        LineSt).slashCount = 1 from fun h =>
          absurd (show (0 : Nat) = 1 from h) (by decide))]
    simp [lineSlashMark, lineMachine, isAsciiSpecialCharacter]
  · rw [lineStep, if_neg h47]
    simp only [lineSlashReset, lineMachine]
    rw [if_pos (show v0 ≠ 32 ∧ ¬ isAsciiSpecialCharacter v0 = true from
      ⟨hv32, by simp [hvsp]⟩), if_neg h47, if_neg h47]

/-- The value body and its trailing spaces are folded by `valFold`; the
slash counter, the comment bookkeeping fields and the pending-value flag
end up at values the harvest does not read. -/
theorem lineScan_value_phase (xs : List Nat) :
    ∀ (K acc : List Nat) (cand snap : Option (List Nat)) (w : Bool) (sl : Nat),
    (∀ c ∈ xs, c ≠ 0) → sl ≤ 1 → (sl = 1 → xs.head? ≠ some 47) → noDS xs →
    ∃ sl' snap' w',
      lineScan xs ⟨.value_findEnd, sl, K, acc, cand, snap, w⟩ =
        ⟨.value_findEnd, sl', K, (valFold xs acc cand).1,
          (valFold xs acc cand).2, snap', w'⟩ := by
  induction xs with
  | nil =>
    intro K acc cand snap w sl _ _ _ _
    exact ⟨sl, snap, w, rfl⟩
  | cons c t ih =>
    intro K acc cand snap w sl h0 hsl hhd hds
    have hc0 : ¬ c = 0 := h0 c (by simp)
    by_cases h47 : c = 47
    · subst h47
      have hsl0 : sl = 0 := by
        have : sl ≠ 1 := fun h1 => (hhd h1) rfl
        omega
      subst hsl0
      have hstep : lineStep ⟨.value_findEnd, 0, K, acc, cand, snap, w⟩ 47 =
          (⟨.value_findEnd, 1, K, 47 :: acc, none,
            (if cand ≠ none then cand else snap), w⟩, false) := by
        rw [lineStep, if_pos rfl,
          if_neg (show ¬ (⟨.value_findEnd, 0, K, acc, cand, snap, w⟩ :
            LineSt).slashCount = 1 from fun h =>
              absurd (show (0 : Nat) = 1 from h) (by decide))]
        simp only [lineSlashMark, lineMachine]
        rw [if_neg (show ¬ (isAsciiSpecialCharacter 47 = true ∨ (47 : Nat) = 32)
          by decide)]
        simp
      rw [lineScan_cons _ _ _ _ (by decide) hstep]
      obtain ⟨sl', snap', w', hrec⟩ := ih K (47 :: acc) none
        (if cand ≠ none then cand else snap) w 1
        (fun x hx => h0 x (by simp [hx])) (le_refl 1)
        (fun _ => noDS_head2 hds) (noDS_tail hds)
      refine ⟨sl', snap', w', ?_⟩
      rw [hrec]
      rw [show valFold (47 :: t) acc cand = valFold t (47 :: acc) none from by
        rw [valFold, if_neg (show ¬ (isAsciiSpecialCharacter 47 = true ∨
          (47 : Nat) = 32) by decide)]]
    · have hnext : ∀ cand2,
          (if isAsciiSpecialCharacter c = true ∨ c = 32 then
            (if cand = none then some acc else cand) else none) = cand2 →
          lineStep ⟨.value_findEnd, sl, K, acc, cand, snap, w⟩ c =
            (⟨.value_findEnd, 0, K, c :: acc, cand2, none, false⟩, false) := by
        intro cand2 hc2
        rw [lineStep, if_neg h47]
        simp only [lineSlashReset, lineMachine]
        by_cases hsp : isAsciiSpecialCharacter c = true ∨ c = 32
        · rw [if_pos hsp]
          rw [if_pos hsp] at hc2
          by_cases hcn : cand = none
          · rw [if_pos hcn]
            rw [if_pos hcn] at hc2
            rw [hc2]
          · rw [if_neg hcn]
            rw [if_neg hcn] at hc2
            rw [hc2]
        · rw [if_neg hsp]
          rw [if_neg hsp] at hc2
          rw [hc2]
      rw [lineScan_cons _ _ _ _ hc0 (hnext _ rfl)]
      obtain ⟨sl', snap', w', hrec⟩ := ih K (c :: acc)
        (if isAsciiSpecialCharacter c = true ∨ c = 32 then
          (if cand = none then some acc else cand) else none) none false 0
        (fun x hx => h0 x (by simp [hx])) (by omega)
        (fun h => absurd h (by omega)) (noDS_tail hds)
      refine ⟨sl', snap', w', ?_⟩
      rw [hrec]
      by_cases hsp : isAsciiSpecialCharacter c = true ∨ c = 32
      · rw [show valFold (c :: t) acc cand =
          valFold t (c :: acc) (if cand = none then some acc else cand) from by
            rw [valFold, if_pos hsp]]
        rw [if_pos hsp]
      · rw [show valFold (c :: t) acc cand = valFold t (c :: acc) none from by
          rw [valFold, if_neg hsp]]
        rw [if_neg hsp]

theorem valFold_acc (xs : List Nat) : ∀ (acc : List Nat) (cand : Option (List Nat)),
    (valFold xs acc cand).1 = xs.reverse ++ acc := by
  induction xs with
  | nil => intro acc cand; simp [valFold]
  | cons c t ih =>
    intro acc cand
    rw [valFold]
    by_cases hsp : isAsciiSpecialCharacter c = true ∨ c = 32
    · rw [if_pos hsp, ih]
      simp
    · rw [if_neg hsp, ih]
      simp

theorem valFold_append (xs : List Nat) : ∀ (ys acc : List Nat) (cand : Option (List Nat)),
    valFold (xs ++ ys) acc cand =
      valFold ys (valFold xs acc cand).1 (valFold xs acc cand).2 := by
  induction xs with
  | nil => intro ys acc cand; rfl
  | cons c t ih =>
    intro ys acc cand
    rw [List.cons_append, valFold, valFold]
    by_cases hsp : isAsciiSpecialCharacter c = true ∨ c = 32
    · rw [if_pos hsp, if_pos hsp, ih]
    · rw [if_neg hsp, if_neg hsp, ih]

/-- After a run of spaces the cut candidate points at the accumulator from
before the run (or is untouched if it was already set). -/
theorem valFold_spaces (sp : List Nat) : ∀ (acc A : List Nat),
    (∀ c ∈ sp, c = 32) →
    (valFold sp acc (some A)).2 = some A := by
  induction sp with
  | nil => intro acc A _; rfl
  | cons c t ih =>
    intro acc A hsp
    have hc : c = 32 := hsp c (by simp)
    subst hc
    rw [valFold, if_pos (by decide)]
    rw [if_neg (show ¬ (some A : Option (List Nat)) = none from fun h => nomatch h)]
    exact ih _ A (fun c hc => hsp c (by simp [hc]))

theorem valFold_spaces_none (sp : List Nat) (acc : List Nat)
    (hsp : ∀ c ∈ sp, c = 32) :
    (valFold sp acc none).2 = if sp = [] then none else some acc := by
  cases sp with
  | nil => rfl
  | cons c t =>
    have hc : c = 32 := hsp c (by simp)
    subst hc
    rw [valFold, if_pos (by decide), if_pos rfl]
    rw [if_neg (show ¬ ((32 : Nat) :: t) = [] from fun h => nomatch h)]
    exact valFold_spaces t _ acc (fun c hc => hsp c (by simp [hc]))

theorem noDS_spaces (ys : List Nat) : (∀ c ∈ ys, c = 32) → noDS ys := by
  induction ys with
  | nil => intro _; trivial
  | cons a t ih =>
    intro hys
    cases t with
    | nil => trivial
    | cons b t2 =>
      refine ⟨?_, ih (fun c hc => hys c (by simp [hc]))⟩
      rintro ⟨ha, -⟩
      have : a = 32 := hys a (by simp)
      omega

theorem noDS_append_spaces (xs : List Nat) : ∀ ys : List Nat,
    noDS xs → (∀ c ∈ ys, c = 32) → noDS (xs ++ ys) := by
  induction xs with
  | nil => intro ys _ hys; exact noDS_spaces ys hys
  | cons a t ih =>
    intro ys hds hys
    cases t with
    | nil =>
      cases ys with
      | nil => trivial
      | cons b t2 =>
        refine ⟨?_, noDS_spaces (b :: t2) hys⟩
        rintro ⟨-, hb⟩
        have : b = 32 := hys b (by simp)
        omega
    | cons b t2 =>
      exact ⟨hds.1, ih ys hds.2 hys⟩

instance noDSDecidable : ∀ l : List Nat, Decidable (noDS l)
  | [] => isTrue trivial
  | [_] => isTrue trivial
  | a :: b :: t =>
    haveI := noDSDecidable (b :: t)
    inferInstanceAs (Decidable (¬(a = 47 ∧ b = 47) ∧ noDS (b :: t)))

/-- Scanning a well-formed "key = value" line: leading spaces, a key with
no space/special/'=' characters, optional spaces, '=', optional spaces,
the (already trimmed) value, trailing spaces.  Double slashes must not
occur in the key or the value (they would start a comment), and the value
must not contain a NUL byte (it would end the C string early). -/
theorem scanLine_wellFormed_aux
    (sp1 sp2 sp3 sp4 key value : List Nat)
    (hsp1 : ∀ c ∈ sp1, c = 32) (hsp2 : ∀ c ∈ sp2, c = 32)
    (hsp3 : ∀ c ∈ sp3, c = 32) (hsp4 : ∀ c ∈ sp4, c = 32)
    (hkne : key ≠ [])
    (hkey : ∀ c ∈ key, c ≠ 32 ∧ isAsciiSpecialCharacter c = false ∧ c ≠ 61)
    (hkds : noDS key)
    (hvne : value ≠ [])
    (hv0 : ∀ c ∈ value, c ≠ 0)
    (hvhead : ∀ c, value.head? = some c →
      c ≠ 32 ∧ isAsciiSpecialCharacter c = false)
    (hvlast : ∀ c, value.getLast? = some c →
      ¬ (isAsciiSpecialCharacter c = true ∨ c = 32))
    (hvds : noDS value) :
    CONFIG_scanLine (sp1 ++ key ++ sp2 ++ [61] ++ sp3 ++ value ++ sp4) =
      some (key, value) := by
  obtain ⟨k, kt, rfl⟩ : ∃ k kt, key = k :: kt := by
    cases key with
    | nil => exact absurd rfl hkne
    | cons a b => exact ⟨a, b, rfl⟩
  obtain ⟨v0, vt, rfl⟩ : ∃ v0 vt, value = v0 :: vt := by
    cases value with
    | nil => exact absurd rfl hvne
    | cons a b => exact ⟨a, b, rfl⟩
  rw [CONFIG_scanLine]
  rw [show sp1 ++ k :: kt ++ sp2 ++ [61] ++ sp3 ++ v0 :: vt ++ sp4 =
    sp1 ++ ((k :: kt) ++ (sp2 ++ (61 :: (sp3 ++ ((v0 :: vt) ++ sp4)))))
    from by simp]
  rw [lineScan_leading_spaces sp1
    ((k :: kt) ++ (sp2 ++ (61 :: (sp3 ++ ((v0 :: vt) ++ sp4))))) hsp1]
  rw [lineScan_key_start k kt
    (sp2 ++ (61 :: (sp3 ++ ((v0 :: vt) ++ sp4)))) (hkey k (by simp))]
  obtain ⟨sl1, hk1⟩ := lineScan_key_phase kt [k]
    (sp2 ++ (61 :: (sp3 ++ ((v0 :: vt) ++ sp4)))) (if k = 47 then 1 else 0)
    (fun c hc => hkey c (by simp [hc]))
    (by split_ifs <;> omega)
    (by
      intro h1
      by_cases h47 : k = 47
      · subst h47
        exact noDS_head2 hkds
      · rw [if_neg h47] at h1
        exact absurd h1 (by decide))
    (noDS_tail hkds)
  rw [hk1]
  have hmid : lineScan (sp2 ++ (61 :: (sp3 ++ ((v0 :: vt) ++ sp4))))
      ⟨.key_findEnd, sl1, kt.reverse ++ [k], [], none, none, false⟩ =
      lineScan (sp3 ++ ((v0 :: vt) ++ sp4))
        ⟨.value_trimLeadingSpaces, 0, kt.reverse ++ [k], [], none, none, false⟩ := by
    cases sp2 with
    | nil =>
      rw [List.nil_append]
      rw [lineScan_key_eq]
    | cons s2 t2 =>
      have hs2 : s2 = 32 := hsp2 s2 (by simp)
      subst hs2
      rw [List.cons_append]
      rw [lineScan_key_space]
      rw [lineScan_eq_spaces t2 _ _ (fun c hc => hsp2 c (by simp [hc]))]
      rw [lineScan_eq_found]
  rw [hmid]
  rw [lineScan_value_spaces sp3 _ _ hsp3]
  rw [lineScan_value_start v0 vt sp4 _ (by
    have := hvhead v0 rfl
    exact ⟨this.1, this.2⟩)]
  obtain ⟨sl', snap', w', hval⟩ := lineScan_value_phase (vt ++ sp4)
    (kt.reverse ++ [k]) [v0] none none
    (if v0 = 47 then true else false) (if v0 = 47 then 1 else 0)
    (by
      intro c hc
      rcases List.mem_append.1 hc with h | h
      · exact hv0 c (by simp [h])
      · have : c = 32 := hsp4 c h
        omega)
    (by split_ifs <;> omega)
    (by
      intro h1
      by_cases h47 : v0 = 47
      · subst h47
        cases vt with
        | nil =>
          simp only [List.nil_append]
          cases sp4 with
          | nil => simp
          | cons s t4 =>
            have hs : s = 32 := hsp4 s (by simp)
            subst hs
            simp
        | cons b bt =>
          have hb := noDS_head2 hvds
          simp only [List.cons_append, List.head?_cons]
          simp only [List.head?_cons] at hb
          exact hb
      · rw [if_neg h47] at h1
        exact absurd h1 (by decide))
    (noDS_append_spaces vt sp4 (noDS_tail hvds) hsp4)
  rw [hval]
  have hC : (valFold vt [v0] none).2 = none := by
    rcases List.eq_nil_or_concat vt with rfl | ⟨l, a, hvt⟩
    · rfl
    · rw [List.concat_eq_append] at hvt
      subst hvt
      have hlast : (v0 :: (l ++ [a])).getLast? = some a := by
        rw [show v0 :: (l ++ [a]) = (v0 :: l) ++ [a] from by simp,
          List.getLast?_concat]
      have hns := hvlast a hlast
      rw [valFold_append l [a] [v0] none]
      rw [valFold, if_neg hns]
      rfl
  have hget : ((valFold (vt ++ sp4) [v0] none).2).getD
      ((valFold (vt ++ sp4) [v0] none).1) = vt.reverse ++ [v0] := by
    rw [valFold_append vt sp4 [v0] none, valFold_acc vt [v0] none, hC]
    rw [valFold_spaces_none sp4 (vt.reverse ++ [v0]) hsp4]
    rw [valFold_acc]
    by_cases hs4 : sp4 = []
    · rw [if_pos hs4]
      subst hs4
      simp
    · rw [if_neg hs4]
      rfl
  rw [lineFinish]
  rw [if_pos (show (⟨.value_findEnd, sl', kt.reverse ++ [k],
    (valFold (vt ++ sp4) [v0] none).1, (valFold (vt ++ sp4) [v0] none).2,
    snap', w'⟩ : LineSt).state = LineState.value_findEnd from rfl)]
  rw [show (⟨.value_findEnd, sl', kt.reverse ++ [k],
    (valFold (vt ++ sp4) [v0] none).1, (valFold (vt ++ sp4) [v0] none).2,
    snap', w'⟩ : LineSt).currentEndOfValue.getD
      (⟨.value_findEnd, sl', kt.reverse ++ [k],
        (valFold (vt ++ sp4) [v0] none).1, (valFold (vt ++ sp4) [v0] none).2,
        snap', w'⟩ : LineSt).valueAcc = vt.reverse ++ [v0] from hget]
  simp

/-- C4 (amended): every line of the shape spaces, key, spaces, '=', spaces,
value, spaces is matched by the line scanner as the pair (key, value),
provided the key is non-empty with no space, special (code < 32 or > 127)
or '=' characters and no "//" substring, and the value is non-empty, free
of NUL bytes and of "//" substrings, and starts and ends with a character
that is neither a space nor special (the leading/trailing trimming is
pushed into the surrounding space blocks).  In particular "key=value",
"key = value" and "key   =   value   " all yield key "key" and value
"value".  The amendment over the original claim: a "//" inside the key or
the value starts a comment and cuts the line there, so the original
unconditional statement is false (see the counterexample). -/
theorem CONFIG_scanLine_wellFormed :
    (∀ sp1 sp2 sp3 sp4 key value : List Nat,
      (∀ c ∈ sp1, c = 32) → (∀ c ∈ sp2, c = 32) →
      (∀ c ∈ sp3, c = 32) → (∀ c ∈ sp4, c = 32) →
      key ≠ [] →
      (∀ c ∈ key, c ≠ 32 ∧ isAsciiSpecialCharacter c = false ∧ c ≠ 61) →
      noDS key →
      value ≠ [] →
      (∀ c ∈ value, c ≠ 0) →
      (∀ c, value.head? = some c → c ≠ 32 ∧ isAsciiSpecialCharacter c = false) →
      (∀ c, value.getLast? = some c →
        ¬ (isAsciiSpecialCharacter c = true ∨ c = 32)) →
      noDS value →
      CONFIG_scanLine (sp1 ++ key ++ sp2 ++ [61] ++ sp3 ++ value ++ sp4) =
        some (key, value)) ∧
    CONFIG_scanLine (str ("key=value")) = some (str ("key"), str ("value")) ∧
    CONFIG_scanLine (str ("key = value")) = some (str ("key"), str ("value")) ∧
    CONFIG_scanLine (str ("key   =   value   ")) =
      some (str ("key"), str ("value")) :=
  ⟨fun sp1 sp2 sp3 sp4 key value h1 h2 h3 h4 h5 h6 h7 h8 h9 h10 h11 h12 =>
    scanLine_wellFormed_aux sp1 sp2 sp3 sp4 key value
      h1 h2 h3 h4 h5 h6 h7 h8 h9 h10 h11 h12,
   by decide, by decide, by decide⟩

/-- C4 counterexample to the original claim: the line "k=a//b" is of the
claimed shape with key "k" and (space-trimmed) value "a//b", but the
scanner returns the value "a" — the "//" starts a comment and cuts the
value retroactively. -/
theorem CONFIG_scanLine_wellFormed_cex :
    CONFIG_scanLine (str ("k=a//b")) = some (str ("k"), str ("a")) ∧
    some (str ("k"), str ("a")) ≠
      (some (str ("k"), str ("a//b")) : Option (List Nat × List Nat)) :=
  ⟨by decide, by decide⟩

/-- Witness for C4 at a concrete well-formed line " k=  v w " (note the
interior space inside the value, which is kept). -/
theorem CONFIG_scanLine_wellFormed_witness :
    CONFIG_scanLine
      ([32] ++ [107] ++ [] ++ [61] ++ [32, 32] ++ [118, 32, 119] ++ [32]) =
      some ([107], [118, 32, 119]) := by
  refine CONFIG_scanLine_wellFormed.1 [32] [] [32, 32] [32] [107] [118, 32, 119]
    (by decide) (by decide) (by decide) (by decide) (by decide) (by decide)
    (by decide) (by decide) (by decide) ?_ ?_ (by decide)
  · intro c hc
    simp only [List.head?_cons, Option.some.injEq] at hc
    subst hc
    decide
  · intro c hc
    have h2 : ([118, 32, 119] : List Nat).getLast? = some 119 := by decide
    rw [h2] at hc
    simp only [Option.some.injEq] at hc
    subst hc
    decide

end UtilH
